import Mathlib

/-!
Verification of the Brand Fit Auditor pipeline (src/app.py) against its
specification.  The Python functions `valid_dims`, `compute_verdict`,
`reconcile_scores`, `_bbox`, `_area`, `_iou`, `_centerdist`, `_merge`,
`dedupe_hotspots`, `parse_json_or_fail`, `build_read_pack` and the
brand-profile refine decision are shallowly embedded below.

Modelling conventions, used throughout:
- Python runtime values are modelled by the inductive type `PVal`
  (`None`, `bool`, `int`, `float`, `str`, `list`, `dict`).  Python dicts
  are association lists; lookup and update use the first occurrence of a
  key, which coincides with real dicts (whose keys are unique).
- Python floats are modelled as exact rationals (`Rat`).  All the
  arithmetic in the audited code (sums of small integers, divisions,
  coordinate arithmetic on values clamped to [0,1]) stays far away from
  the region where IEEE-754 doubles round, so exact arithmetic is a
  faithful model; `inf`/`nan` cannot be represented and the string
  coercion below treats them as the net effect the code produces for
  them (the entry is dropped / the call raises).
- A Python function that can raise an uncaught exception is modelled as
  returning `Option`, with `Option.none` standing for the raised
  exception.
- `math.hypot c1 c2 < 0.12` is modelled by comparing the squared
  distance with `(3/25)^2`; over exact rationals the two comparisons are
  equivalent since both sides are nonnegative.
-/

attribute [local semireducible] Rat.add Rat.mul Rat.inv Rat.sub Rat.ofScientific

/-- Model of a Python runtime value as produced by `json.loads` and
manipulated by the audited code. -/
inductive PVal where
  | none
  | bool (b : Bool)
  | int (n : Int)
  | float (q : Rat)
  | str (s : String)
  | list (xs : List PVal)
  | dict (kvs : List (String × PVal))

mutual

/-- Structural equality test for `PVal` (Lean's `deriving` does not handle
the nested occurrence, so it is written out). -/
def PVal.beq : PVal → PVal → Bool
  | .none, .none => true
  | .bool a, .bool b => a == b
  | .int a, .int b => a == b
  | .float a, .float b => a == b
  | .str a, .str b => a == b
  | .list xs, .list ys => PVal.beqList xs ys
  | .dict xs, .dict ys => PVal.beqDict xs ys
  | _, _ => false

/-- Pointwise `PVal.beq` on lists. -/
def PVal.beqList : List PVal → List PVal → Bool
  | [], [] => true
  | x :: xs, y :: ys => PVal.beq x y && PVal.beqList xs ys
  | _, _ => false

/-- Pointwise `PVal.beq` on association lists. -/
def PVal.beqDict : List (String × PVal) → List (String × PVal) → Bool
  | [], [] => true
  | (k, v) :: xs, (l, w) :: ys => k == l && PVal.beq v w && PVal.beqDict xs ys
  | _, _ => false

end

mutual

def PVal.eq_of_beq : ∀ a b : PVal, PVal.beq a b = true → a = b
  | .none, .none, _ => rfl
  | .bool a, .bool b, h => by simpa [PVal.beq] using h
  | .int a, .int b, h => by simpa [PVal.beq] using h
  | .float a, .float b, h => by simpa [PVal.beq] using h
  | .str a, .str b, h => by simpa [PVal.beq] using h
  | .list xs, .list ys, h => by
      rw [PVal.eqList_of_beqList xs ys (by simpa [PVal.beq] using h)]
  | .dict xs, .dict ys, h => by
      rw [PVal.eqDict_of_beqDict xs ys (by simpa [PVal.beq] using h)]

def PVal.eqList_of_beqList : ∀ xs ys : List PVal, PVal.beqList xs ys = true → xs = ys
  | [], [], _ => rfl
  | x :: xs, y :: ys, h => by
      have h1 : PVal.beq x y = true := by
        have := h; simp [PVal.beqList, Bool.and_eq_true] at this; exact this.1
      have h2 : PVal.beqList xs ys = true := by
        have := h; simp [PVal.beqList, Bool.and_eq_true] at this; exact this.2
      rw [PVal.eq_of_beq x y h1, PVal.eqList_of_beqList xs ys h2]

def PVal.eqDict_of_beqDict :
    ∀ xs ys : List (String × PVal), PVal.beqDict xs ys = true → xs = ys
  | [], [], _ => rfl
  | (k, v) :: xs, (l, w) :: ys, h => by
      have h0 : k = l := by
        have := h; simp [PVal.beqDict, Bool.and_eq_true] at this; exact this.1.1
      have h1 : PVal.beq v w = true := by
        have := h; simp [PVal.beqDict, Bool.and_eq_true] at this; exact this.1.2
      have h2 : PVal.beqDict xs ys = true := by
        have := h; simp [PVal.beqDict, Bool.and_eq_true] at this; exact this.2
      rw [h0, PVal.eq_of_beq v w h1, PVal.eqDict_of_beqDict xs ys h2]

end

mutual

def PVal.beq_self : ∀ a : PVal, PVal.beq a a = true
  | .none => rfl
  | .bool a => by simp [PVal.beq]
  | .int a => by simp [PVal.beq]
  | .float a => by simp [PVal.beq]
  | .str a => by simp [PVal.beq]
  | .list xs => by simp [PVal.beq, PVal.beqList_self xs]
  | .dict xs => by simp [PVal.beq, PVal.beqDict_self xs]

def PVal.beqList_self : ∀ xs : List PVal, PVal.beqList xs xs = true
  | [] => rfl
  | x :: xs => by simp [PVal.beqList, PVal.beq_self x, PVal.beqList_self xs]

def PVal.beqDict_self : ∀ xs : List (String × PVal), PVal.beqDict xs xs = true
  | [] => rfl
  | (k, v) :: xs => by simp [PVal.beqDict, PVal.beq_self v, PVal.beqDict_self xs]

end

instance : DecidableEq PVal := fun a b =>
  if h : PVal.beq a b = true then .isTrue (PVal.eq_of_beq a b h)
  else .isFalse (fun he => h (he ▸ PVal.beq_self a))

/-- Python truthiness (`bool(x)`): `None`, `False`, zero, the empty string
and empty containers are falsy. -/
def pyTruthy : PVal → Bool
  | .none => false
  | .bool b => b
  | .int n => n ≠ 0
  | .float q => q ≠ 0
  | .str s => s ≠ ""
  | .list xs => xs ≠ []
  | .dict kvs => kvs ≠ []

/-- `d.get(key)` on a Python dict: the value at the first (equivalently,
only) occurrence of the key. -/
def dictGet : List (String × PVal) → String → Option PVal
  | [], _ => Option.none
  | (k, v) :: t, key => if k = key then some v else dictGet t key

/-- `d.get(key, default)` on a Python dict. -/
def dictGetD (d : List (String × PVal)) (key : String) (dflt : PVal) : PVal :=
  (dictGet d key).getD dflt

/-- `d[key] = v` on a Python dict: updates the existing entry in place,
otherwise appends the new key at the end (Python dicts preserve insertion
order). -/
def dictSet : List (String × PVal) → String → PVal → List (String × PVal)
  | [], key, v => [(key, v)]
  | (k, w) :: t, key, v => if k = key then (key, v) :: t else (k, w) :: dictSet t key v

/-- Python `a or b`: `a` if truthy, else `b`. -/
def pyOr (a b : PVal) : PVal := if pyTruthy a then a else b

/-- Characters stripped by Python `str.strip()` / accepted as padding by
`float()` and `int()`; Lean's `Char.isWhitespace` covers the ASCII ones,
which is what the audited strings contain. -/
def pyWs (c : Char) : Bool := c.isWhitespace

/-- Python `str.lower()` (character-wise ASCII lowercasing; the audited
comparisons only involve ASCII strings). -/
def pyLower (s : String) : String := String.mk (s.data.map Char.toLower)

/-- Python `str.strip()`: remove leading and trailing whitespace. -/
def pyStrip (s : String) : String :=
  String.mk ((s.data.dropWhile pyWs).reverse.dropWhile pyWs |>.reverse)

/-- Digit-run parser: consumes leading decimal digits, returning them and
the rest. -/
def spanDigits (cs : List Char) : List Char × List Char :=
  (cs.takeWhile Char.isDigit, cs.dropWhile Char.isDigit)

/-- Value of a run of decimal digit characters. -/
def digitsVal (cs : List Char) : Nat :=
  cs.foldl (fun acc c => acc * 10 + (c.toNat - 48)) 0

/-- Parse an optional sign, returning the sign factor and the rest. -/
def spanSign : List Char → Int × List Char
  | '-' :: t => (-1, t)
  | '+' :: t => (1, t)
  | cs => (1, cs)

/-- Python `float(s)` for a string, restricted to finite decimal literals
`[ws][+-](digits[.digits] | .digits)[(e|E)[+-]digits][ws]`.
`Modelled from the source:` the code's only use is
`float(d.get("score", 0))` immediately followed by `int(round(score))`;
for the literals `inf`/`nan` the coercion succeeds in Python but the
subsequent rounding raises, so the entry is dropped either way, and this
model folds that into a failed parse.  Underscored literals are not
modelled. -/
def pyFloatLit (s : String) : Option Rat :=
  let cs := (s.toList.dropWhile pyWs).reverse.dropWhile pyWs |>.reverse
  let (sgn, cs) := spanSign cs
  let (ip, cs) := spanDigits cs
  let (fp, cs) :=
    match cs with
    | '.' :: t => let (fp, r) := spanDigits t; (fp, r)
    | _ => ([], cs)
  if ip.isEmpty ∧ fp.isEmpty then Option.none else
  let mant : Rat := (sgn * digitsVal ip : Int) +
    sgn * (digitsVal fp : Int) / ((10 : Rat) ^ fp.length)
  match cs with
  | [] => some mant
  | 'e' :: t =>
      let (esgn, t) := spanSign t
      let (ed, t) := spanDigits t
      if ed.isEmpty ∨ ¬ t.isEmpty then Option.none
      else some (mant * (10 : Rat) ^ (esgn * digitsVal ed : Int))
  | 'E' :: t =>
      let (esgn, t) := spanSign t
      let (ed, t) := spanDigits t
      if ed.isEmpty ∨ ¬ t.isEmpty then Option.none
      else some (mant * (10 : Rat) ^ (esgn * digitsVal ed : Int))
  | _ => Option.none

/-- Python `int(s)` for a string: `[ws][+-]digits[ws]`, no decimal point. -/
def pyIntLit (s : String) : Option Int :=
  let cs := (s.toList.dropWhile pyWs).reverse.dropWhile pyWs |>.reverse
  let (sgn, cs) := spanSign cs
  let (ds, cs) := spanDigits cs
  if ds.isEmpty ∨ ¬ cs.isEmpty then Option.none else some (sgn * digitsVal ds)

/-- Python `float(x)`: succeeds (finitely) on numbers, booleans and
numeric strings; raises on everything else (`Option.none`). -/
def floatValue : PVal → Option Rat
  | .bool b => some (if b then 1 else 0)
  | .int n => some (n : Rat)
  | .float q => some q
  | .str s => pyFloatLit s
  | _ => Option.none

/-- Truncation of a rational toward zero, as Python `int(float)` does. -/
def ratTrunc (q : Rat) : Int := if 0 ≤ q then q.floor else -((-q).floor)

/-- Python `int(x)`: identity on ints, `0/1` on bools, truncation on
floats, integer-literal parsing on strings; raises on everything else. -/
def intValue : PVal → Option Int
  | .bool b => some (if b then 1 else 0)
  | .int n => some n
  | .float q => some (ratTrunc q)
  | .str s => pyIntLit s
  | _ => Option.none

/-- Python `round(x)` with no `ndigits`: round half to even. -/
def roundHalfEven (q : Rat) : Int :=
  let f := q.floor
  let r := q - (f : Rat)
  if r < 1/2 then f
  else if 1/2 < r then f + 1
  else if f % 2 = 0 then f else f + 1

/-!
Score Reconciliation Engine (src/app.py lines 363-399)
-/

/-- Python iteration `for d in x`: lists yield their elements, strings
their characters, dicts their keys; other truthy values raise
`TypeError` (`Option.none`). -/
def pyIter : PVal → Option (List PVal)
  | .list xs => some xs
  | .str s => some (s.toList.map fun c => PVal.str (String.mk [c]))
  | .dict kvs => some (kvs.map fun kv => PVal.str kv.1)
  | _ => Option.none

/-- The three recognized dimension names (`allowed` in `valid_dims`). -/
def allowedDims : List String :=
  ["Tone & Voice", "Visual Identity", "Brand-Product Relevance"]

/-- A validated dimension as appended by `valid_dims`:
`{"name": ..., "score": ..., "rationale": ...}`. -/
structure VDim where
  name : String
  score : Int
  rationale : PVal
deriving DecidableEq

/-- One loop iteration of `valid_dims`: `some` when the entry is appended
(a dict with a recognized string name and a float-coercible score), with
the score coerced by `int(round(float(...)))` and clamped into [0,100];
`Option.none` when the entry is skipped. -/
def validEntry (d : PVal) : Option VDim :=
  match d with
  | .dict kvs =>
      match dictGet kvs "name" with
      | some (.str nm) =>
          if nm ∈ allowedDims then
            match floatValue (dictGetD kvs "score" (PVal.int 0)) with
            | some q =>
                some ⟨nm, max 0 (min 100 (roundHalfEven q)),
                      dictGetD kvs "rationale" (PVal.str "")⟩
            | Option.none => Option.none
          else Option.none
      | _ => Option.none
  | _ => Option.none

/-- `valid_dims(items)` (src/app.py lines 363-373).  The argument is the
value of `fit.get("dimensions")` (`Option.none` when the key is absent,
standing for Python `None` via `getD` below).  `for d in items or []`
iterates nothing when `items` is falsy and raises when `items` is truthy
but not iterable. -/
def valid_dims (items : Option PVal) : Option (List VDim) :=
  let it := items.getD PVal.none
  let base := if pyTruthy it then it else PVal.list []
  match pyIter base with
  | Option.none => Option.none
  | some ds => some (ds.filterMap validEntry)

/-- `compute_verdict(score)` (src/app.py lines 383-387). -/
def compute_verdict (score : Int) : String :=
  if score ≥ 80 then "Strong fit"
  else if score ≥ 60 then "Good fit"
  else if score ≥ 40 then "Borderline"
  else "Misaligned"

/-- The dict literal appended by `valid_dims`, as re-stored into
`fit["dimensions"]` by `reconcile_scores`. -/
def vdimToPVal (d : VDim) : PVal :=
  .dict [("name", .str d.name), ("score", .int d.score), ("rationale", d.rationale)]

/-- `reconcile_scores(fit)` (src/app.py lines 389-399).  Returns
`Option.none` when the Python code raises an uncaught exception (a truthy
non-iterable `dimensions` value, or — in the zero-valid-dimensions branch
— a truthy `overall_score` value that `int()` cannot coerce). -/
def reconcile_scores (fit : List (String × PVal)) : Option (List (String × PVal)) :=
  match valid_dims (dictGet fit "dimensions") with
  | Option.none => Option.none
  | some dims =>
      if dims.isEmpty then
        match intValue (pyOr (dictGetD fit "overall_score" (PVal.int 0)) (PVal.int 0)) with
        | Option.none => Option.none
        | some n =>
            let c := max 0 (min 100 n)
            some (dictSet (dictSet fit "overall_score" (PVal.int c))
                  "verdict" (PVal.str (compute_verdict c)))
      else
        let avg := roundHalfEven
          ((dims.map fun d => (d.score : Rat)).sum / (dims.length : Rat))
        some (dictSet (dictSet (dictSet fit "dimensions" (PVal.list (dims.map vdimToPVal)))
              "overall_score" (PVal.int avg)) "verdict" (PVal.str (compute_verdict avg)))

/-!
JSON extraction (`parse_json_or_fail`, src/app.py lines 91-102)

Python strings are modelled as `List Char`.  `json.loads` is modelled by
a fuel-based recursive-descent parser for the strict JSON grammar
(`jsonLoads` below): objects become `PVal.dict`, arrays `PVal.list`,
integer literals `PVal.int`, other numeric literals exact `PVal.float`
rationals, and string contents are kept with their escape sequences
undecoded (no audited property inspects decoded text).  For an object
with duplicate keys the later value wins at the position of the first
occurrence, as in CPython.
-/

/-- The `{` character, written via its code point. -/
def jLBrace : Char := Char.ofNat 123

/-- The `}` character, written via its code point. -/
def jRBrace : Char := Char.ofNat 125

/-- The double-quote character. -/
def jQuote : Char := Char.ofNat 34

/-- The backslash character. -/
def jBackslash : Char := Char.ofNat 92

/-- JSON insignificant whitespace (exactly the four characters the
`json` module skips). -/
def jWsChar (c : Char) : Bool := c = ' ' || c = '\t' || c = '\n' || c = '\r'

/-- Skip insignificant JSON whitespace. -/
def skipJWs (cs : List Char) : List Char := cs.dropWhile jWsChar

/-- Hexadecimal digit test for `\u` escapes. -/
def isHexDig (c : Char) : Bool :=
  c.isDigit || ('a' ≤ c && c ≤ 'f') || ('A' ≤ c && c ≤ 'F')

/-- Parse the body of a JSON string after the opening quote, returning
the (escape-undecoded) content and the remainder after the closing
quote.  Unescaped control characters are rejected, as in the module's
strict mode. -/
def jStrChars : List Char → Option (List Char × List Char)
  | [] => Option.none
  | c :: t =>
    if c = jQuote then some ([], t)
    else if c = jBackslash then
      match t with
      | [] => Option.none
      | e :: t2 =>
        if e = jQuote || e = jBackslash || e = '/' || e = 'b' || e = 'f' ||
           e = 'n' || e = 'r' || e = 't' then
          (jStrChars t2).map fun p => (c :: e :: p.1, p.2)
        else if e = 'u' then
          match t2 with
          | h1 :: h2 :: h3 :: h4 :: t3 =>
            if isHexDig h1 && isHexDig h2 && isHexDig h3 && isHexDig h4 then
              (jStrChars t3).map fun p => (c :: e :: h1 :: h2 :: h3 :: h4 :: p.1, p.2)
            else Option.none
          | _ => Option.none
        else Option.none
    else if c.toNat < 32 then Option.none
    else (jStrChars t).map fun p => (c :: p.1, p.2)

/-- Exact value of a JSON numeric literal with integer digits `ip`,
fractional digits `fp`, sign `sgn` and decimal exponent `ex`. -/
def jNumVal (sgn : Int) (ip fp : List Char) (ex : Int) : Rat :=
  ((sgn * digitsVal ip : Int) + (sgn * digitsVal fp : Int) / ((10 : Rat) ^ fp.length)) *
    (10 : Rat) ^ ex

/-- Parse the optional exponent of a JSON number and build the value. -/
def jNumExp (sgn : Int) (ip fp : List Char) : List Char → Option (PVal × List Char)
  | 'e' :: t =>
      let (esgn, t1) : Int × List Char :=
        match t with
        | '-' :: r => (-1, r)
        | '+' :: r => (1, r)
        | r => (1, r)
      let (ed, t2) := spanDigits t1
      if ed.isEmpty then Option.none
      else some (.float (jNumVal sgn ip fp (esgn * digitsVal ed)), t2)
  | 'E' :: t =>
      let (esgn, t1) : Int × List Char :=
        match t with
        | '-' :: r => (-1, r)
        | '+' :: r => (1, r)
        | r => (1, r)
      let (ed, t2) := spanDigits t1
      if ed.isEmpty then Option.none
      else some (.float (jNumVal sgn ip fp (esgn * digitsVal ed)), t2)
  | cs => some (.float (jNumVal sgn ip fp 0), cs)

/-- Parse a JSON numeric literal; integer literals become `PVal.int` (as
`json.loads` returns `int` for them), others `PVal.float`. -/
def jNum (cs : List Char) : Option (PVal × List Char) :=
  let (neg, cs1) : Bool × List Char := match cs with | '-' :: t => (true, t) | _ => (false, cs)
  let (ip, cs2) := spanDigits cs1
  if ip.isEmpty then Option.none
  else if 1 < ip.length ∧ ip.headD '0' = '0' then Option.none
  else
    let sgn : Int := if neg then -1 else 1
    match cs2 with
    | '.' :: t =>
        let (fp, cs3) := spanDigits t
        if fp.isEmpty then Option.none else jNumExp sgn ip fp cs3
    | 'e' :: t => jNumExp sgn ip [] ('e' :: t)
    | 'E' :: t => jNumExp sgn ip [] ('E' :: t)
    | _ => some (.int (sgn * digitsVal ip), cs2)

/-- Member insertion for JSON objects: the later occurrence of a
duplicate key wins, at the position of the first occurrence. -/
def jInsertMember (k : String) (v : PVal) (kvs : List (String × PVal)) :
    List (String × PVal) :=
  match dictGet kvs k with
  | some w => (k, w) :: kvs.filter fun kv => kv.1 ≠ k
  | Option.none => (k, v) :: kvs

mutual

/-- Fuel-based JSON value parser (model of `json.loads`, up to the entry
point `jsonLoads` below).  Consumes leading whitespace itself. -/
def jParse : Nat → List Char → Option (PVal × List Char)
  | 0, _ => Option.none
  | Nat.succ fuel, cs0 =>
    match skipJWs cs0 with
    | [] => Option.none
    | c :: t =>
      if c = jLBrace then
        match skipJWs t with
        | d :: t2 => if d = jRBrace then some (.dict [], t2) else jMembers fuel (d :: t2)
        | [] => Option.none
      else if c = '[' then
        match skipJWs t with
        | d :: t2 => if d = ']' then some (.list [], t2) else jElems fuel (d :: t2)
        | [] => Option.none
      else if c = jQuote then
        match jStrChars t with
        | some p => some (.str (String.mk p.1), p.2)
        | Option.none => Option.none
      else
        match c :: t with
        | 't' :: 'r' :: 'u' :: 'e' :: r => some (.bool true, r)
        | 'f' :: 'a' :: 'l' :: 's' :: 'e' :: r => some (.bool false, r)
        | 'n' :: 'u' :: 'l' :: 'l' :: r => some (.none, r)
        | cs => jNum cs

/-- Parse the members of a JSON object, starting at the first key's
quote and ending after the closing brace. -/
def jMembers : Nat → List Char → Option (PVal × List Char)
  | 0, _ => Option.none
  | Nat.succ fuel, cs =>
    match cs with
    | c :: t =>
      if c = jQuote then
        match jStrChars t with
        | some pk =>
          match skipJWs pk.2 with
          | ':' :: r2 =>
            match jParse fuel r2 with
            | some pv =>
              match skipJWs pv.2 with
              | ',' :: r4 =>
                  (match jMembers fuel (skipJWs r4) with
                   | some (.dict kvs, r5) =>
                       some (.dict (jInsertMember (String.mk pk.1) pv.1 kvs), r5)
                   | _ => Option.none)
              | d :: r4 =>
                  if d = jRBrace then some (.dict [(String.mk pk.1, pv.1)], r4)
                  else Option.none
              | [] => Option.none
            | Option.none => Option.none
          | _ => Option.none
        | Option.none => Option.none
      else Option.none
    | [] => Option.none

/-- Parse the elements of a JSON array, starting at the first element
and ending after the closing bracket. -/
def jElems : Nat → List Char → Option (PVal × List Char)
  | 0, _ => Option.none
  | Nat.succ fuel, cs =>
    match jParse fuel cs with
    | some pv =>
      match skipJWs pv.2 with
      | ',' :: r2 =>
          (match jElems fuel r2 with
           | some (.list xs, r3) => some (.list (pv.1 :: xs), r3)
           | _ => Option.none)
      | d :: r2 => if d = ']' then some (.list [pv.1], r2) else Option.none
      | [] => Option.none
    | Option.none => Option.none

end

/-- Model of `json.loads`: parse one JSON value and require only
whitespace to remain. -/
def jsonLoads (cs : List Char) : Option PVal :=
  match jParse (cs.length + 2) cs with
  | some p => if (skipJWs p.2).isEmpty then some p.1 else Option.none
  | Option.none => Option.none

/-- Python `raw.find(c)`: first index, `-1` when absent. -/
def pyFind (cs : List Char) (c : Char) : Int :=
  match cs.findIdx? (· = c) with
  | some n => (n : Int)
  | Option.none => -1

/-- Python `raw.rfind(c)`: last index, `-1` when absent. -/
def pyRfind (cs : List Char) (c : Char) : Int :=
  match cs.reverse.findIdx? (· = c) with
  | some n => (cs.length : Int) - 1 - (n : Int)
  | Option.none => -1

/-- The span `raw[s:e+1]` between the first `{` and the last `}` that
`parse_json_or_fail` feeds to `json.loads`, when
`s != -1 and e != -1 and e > s`. -/
def braceSpan (raw : List Char) : Option (List Char) :=
  let s := pyFind raw jLBrace
  let e := pyRfind raw jRBrace
  if s ≠ -1 ∧ e ≠ -1 ∧ e > s then some ((raw.drop s.toNat).take (e.toNat + 1 - s.toNat))
  else Option.none

/-- `parse_json_or_fail(raw, ...)` (src/app.py lines 91-102).  `some`
is the parsed dict that is returned, `Option.none` is the fatal-halt
path (`st.error`/`st.stop`, reached when no span is extracted, when
`json.loads` raises, or when the parsed value is falsy). -/
def parse_json_or_fail (raw : List Char) : Option PVal :=
  let data := match braceSpan raw with
              | some sub => jsonLoads sub
              | Option.none => Option.none
  match data with
  | some j => if pyTruthy j then some j else Option.none
  | Option.none => Option.none

/-!
Brand-profile refine pass (src/app.py lines 576-586)
-/

/-- The refine decision
`(br_json.get("granularity","").lower() != "macro") or not (br_json.get("category") or "").strip()`
(src/app.py line 576).  `Option.none` models the uncaught
`AttributeError` raised when `granularity` is a truthy non-string (from
`.lower()`) or — with macro granularity — when `category` is a truthy
non-string (from `.strip()`); `or` short-circuits, so `category` is not
inspected when the granularity test already requires refinement. -/
def need_refine (br : List (String × PVal)) : Option Bool :=
  match dictGetD br "granularity" (PVal.str "") with
  | .str g =>
      if pyLower g ≠ "macro" then some true
      else
        match pyOr (dictGetD br "category" PVal.none) (PVal.str "") with
        | .str c => some (pyStrip c = "")
        | _ => Option.none
  | _ => Option.none

/-- The refine control flow (src/app.py lines 577-586): when refinement
is needed, one refine request is issued and its parsed result `refined`
wholly replaces the first profile (`br_json = br_json2`), with no
field-level merge, no re-validation of the replacement, and no loop;
otherwise the first profile is kept.  The second LLM call is opaque, so
its parsed result is a parameter. -/
def refine_flow (first refined : List (String × PVal)) :
    Option (List (String × PVal)) :=
  match need_refine first with
  | Option.none => Option.none
  | some true => some refined
  | some false => some first

/-!
Evidence pack builder (`build_read_pack`, src/app.py lines 124-138)

BeautifulSoup parsing is an external library; a parsed HTML document is
represented by its extracted text: the title text, the `h1`-`h4` heading
texts, the `strong/b/em/mark` emphasis texts, the `li` item texts (the
source comprehensions keep only elements with nonempty stripped text,
modelled by the `≠ ""` filters below) and the whole-page plain text. -/
structure Soup where
  title : String
  heads : List String
  emph : List String
  lis : List String
  body : String

/-- `dict.fromkeys(xs)` key deduplication: keep the first occurrence of
each string, preserving order (worker with the already-seen keys). -/
def dedupFirstAux (seen : List String) : List String → List String
  | [] => []
  | x :: xs => if x ∈ seen then dedupFirstAux seen xs else x :: dedupFirstAux (x :: seen) xs

/-- `list(dict.fromkeys(xs))`: first-occurrence deduplication. -/
def dedupFirst (xs : List String) : List String := dedupFirstAux [] xs

/-- The `blocks` list built by `build_read_pack` (src/app.py lines
132-137): the four optional sections, each appended only when nonempty,
then unconditionally the `[BODY]` block with the body text truncated to
`max_body` characters. -/
def read_pack_blocks (soup : Soup) (max_body : Nat) : List String :=
  let title := pyStrip soup.title
  let heads := soup.heads.filter fun s => s ≠ ""
  let emph := soup.emph.filter fun s => s ≠ ""
  let lis := soup.lis.filter fun s => s ≠ ""
  let body := String.mk (soup.body.data.take max_body)
  (if title ≠ "" then ["[TITLE]\n" ++ title] else []) ++
  (if heads ≠ [] then ["[HEADLINES]\n- " ++ String.intercalate "\n- " (dedupFirst heads)]
   else []) ++
  (if emph ≠ [] then ["[EMPHASIS]\n- " ++ String.intercalate "\n- " (dedupFirst emph)]
   else []) ++
  (if lis ≠ [] then ["[LIST]\n- " ++ String.intercalate "\n- " (lis.take 300)] else []) ++
  ["[BODY]\n" ++ body]

/-- `build_read_pack(html, max_body)` (src/app.py line 138): the blocks
joined with a blank line. -/
def build_read_pack (soup : Soup) (max_body : Nat) : String :=
  String.intercalate "\n\n" (read_pack_blocks soup max_body)

/-- The section tag of a pack block: its first line. -/
def sectionTag (s : String) : String := String.mk (s.data.takeWhile fun c => c != '\n')

/-!
Hotspot Geometry Engine (src/app.py lines 402-447)

A hotspot candidate is a Python dict (`Hot` below); `dedupe_hotspots`
first drops non-dict entries.  CPython's set iteration order (used by
`_merge` for `risks` and the deduplicated part of `suggested_edits`) is
hash-based and not reproducible across processes; it is modelled here as
first-insertion order, which realizes the same set membership. -/
abbrev Hot := List (String × PVal)

/-- An axis-aligned bounding box `(x1, y1, x2, y2)`. -/
structure BBox where
  x1 : Rat
  y1 : Rat
  x2 : Rat
  y2 : Rat
deriving DecidableEq

/-- The shape tag `(h.get("shape") or "circle").lower()`: `Option.none`
models the `AttributeError` raised when the shape field holds a truthy
non-string. -/
def shapeLower (h : Hot) : Option String :=
  match pyOr (dictGetD h "shape" PVal.none) (PVal.str "circle") with
  | .str s => some (pyLower s)
  | _ => Option.none

/-- `_bbox(h)` (src/app.py lines 402-407): rects use `x,y,w,h` with
default 0, anything else is a circle using `cx,cy,r` with defaults
0.5, 0.5, 0.1.  `Option.none` models the exceptions raised by `.lower()`
on a truthy non-string shape or by `float()` on a non-coercible field. -/
def _bbox (h : Hot) : Option BBox :=
  match shapeLower h with
  | Option.none => Option.none
  | some s =>
      if s = "rect" then
        match floatValue (dictGetD h "x" (PVal.int 0)),
              floatValue (dictGetD h "y" (PVal.int 0)),
              floatValue (dictGetD h "w" (PVal.int 0)),
              floatValue (dictGetD h "h" (PVal.int 0)) with
        | some x, some y, some w, some hh => some ⟨x, y, x + w, y + hh⟩
        | _, _, _, _ => Option.none
      else
        match floatValue (dictGetD h "cx" (PVal.float (1/2))),
              floatValue (dictGetD h "cy" (PVal.float (1/2))),
              floatValue (dictGetD h "r" (PVal.float (1/10))) with
        | some cx, some cy, some r => some ⟨cx - r, cy - r, cx + r, cy + r⟩
        | _, _, _ => Option.none

/-- `_area(b)` (src/app.py lines 409-410). -/
def _area (b : BBox) : Rat := max 0 (b.x2 - b.x1) * max 0 (b.y2 - b.y1)

/-- `_iou(b1, b2)` (src/app.py lines 412-416). -/
def _iou (b1 b2 : BBox) : Rat :=
  let ix1 := max b1.x1 b2.x1
  let iy1 := max b1.y1 b2.y1
  let ix2 := min b1.x2 b2.x2
  let iy2 := min b1.y2 b2.y2
  let iw := max 0 (ix2 - ix1)
  let ih := max 0 (iy2 - iy1)
  let inter := iw * ih
  let union := _area b1 + _area b2 - inter
  if 0 < union then inter / union else 0

/-- Squared center-to-center distance of two bounding boxes; comparing it
with `0.12 ^ 2` is equivalent to `_centerdist(b1, b2) < 0.12`
(src/app.py lines 418-420) over exact arithmetic. -/
def _centerdistSq (b1 b2 : BBox) : Rat :=
  ((b1.x1 + b1.x2) / 2 - (b2.x1 + b2.x2) / 2) ^ 2 +
  ((b1.y1 + b1.y2) / 2 - (b2.y1 + b2.y2) / 2) ^ 2

/-- The merge test of `dedupe_hotspots` (src/app.py line 437):
`_iou(b, bk) > 0.55 or _centerdist(b, bk) < 0.12`. -/
def mergePred (b bk : BBox) : Bool :=
  decide ((11/20 : Rat) < _iou b bk) || decide (_centerdistSq b bk < (3/25) ^ 2)

/-- Values CPython can place in a set (the audited ones): lists and
dicts are unhashable and raise `TypeError`. -/
def pyHashable : PVal → Bool
  | .list _ => false
  | .dict _ => false
  | _ => true

/-- Numeric view of a value for Python `==` (bools and ints compare
equal to floats of the same value). -/
def pyNumVal : PVal → Option Rat
  | .bool b => some (if b then 1 else 0)
  | .int n => some (n : Rat)
  | .float q => some q
  | _ => Option.none

/-- Python `==` on hashable values. -/
def pyEq (a b : PVal) : Bool :=
  match pyNumVal a, pyNumVal b with
  | some x, some y => decide (x = y)
  | _, _ => decide (a = b)

/-- Set-insertion deduplication worker: drop elements equal (by Python
`==`) to an already-seen one. -/
def setDedupAux (seen : List PVal) : List PVal → List PVal
  | [] => []
  | x :: xs =>
      if seen.any (fun y => pyEq y x) then setDedupAux seen xs
      else x :: setDedupAux (x :: seen) xs

/-- The list obtained by pouring `xs` into a CPython set and back into a
list, with iteration order modelled as first-insertion order. -/
def setDedupP (xs : List PVal) : List PVal := setDedupAux [] xs

/-- `*(v or [])` unpacking of an optional field: falsy and missing
values unpack to nothing, iterables to their elements, and truthy
non-iterables raise (`Option.none`). -/
def starUnpack (v : Option PVal) : Option (List PVal) :=
  pyIter (pyOr (v.getD PVal.none) (PVal.list []))

/-- The `label` line of `_merge` (src/app.py line 424): fill `label`
from `b` only when `a`'s is falsy and `b`'s is truthy. -/
def mergeLabel (a b : Hot) : Hot :=
  if ¬ pyTruthy (dictGetD a "label" PVal.none) ∧ pyTruthy (dictGetD b "label" PVal.none)
  then dictSet a "label" (dictGetD b "label" PVal.none) else a

/-- The `suggested_edits` line of `_merge`:
`out["suggested_edits"] = [*{*(out.get("suggested_edits") or [])}, *(b.get("suggested_edits") or [])]`. -/
def mergeEdits (out2 b : Hot) : Option Hot :=
  match starUnpack (dictGet out2 "suggested_edits"),
        starUnpack (dictGet b "suggested_edits") with
  | some ea, some eb =>
      if ea.all pyHashable then
        some (dictSet out2 "suggested_edits" (PVal.list (setDedupP ea ++ eb)))
      else Option.none
  | _, _ => Option.none

/-- `_merge(a, b)` (src/app.py lines 422-427): copy `a`; fill `label`;
set `risks` to the set-union of both risk lists; set `suggested_edits`
to the set-deduplicated `a`-list followed by the `b`-list verbatim.
`Option.none` models `TypeError` from unpacking a truthy non-iterable or
from hashing an unhashable element. -/
def _merge (a b : Hot) : Option Hot :=
  match starUnpack (dictGet (mergeLabel a b) "risks"), starUnpack (dictGet b "risks") with
  | some ra, some rb =>
      if (ra ++ rb).all pyHashable then
        mergeEdits (dictSet (mergeLabel a b) "risks" (PVal.list (setDedupP (ra ++ rb)))) b
      else Option.none
  | _, _ => Option.none

/-- The inner `for i, k in enumerate(kept)` loop of `dedupe_hotspots`
for one candidate with bounding box `b`: `some Option.none` when no kept
region matches (no merge), `some (some kept2)` when the candidate merged
into the first matching region, `Option.none` when the iteration
raises. -/
def scanKept (b : BBox) (h : Hot) : List Hot → Option (Option (List Hot))
  | [] => some Option.none
  | k :: ks =>
      match _bbox k with
      | Option.none => Option.none
      | some bk =>
          if mergePred b bk then
            match _merge k h with
            | some m => some (some (m :: ks))
            | Option.none => Option.none
          else
            match scanKept b h ks with
            | Option.none => Option.none
            | some Option.none => some Option.none
            | some (some ks2) => some (some (k :: ks2))

/-- The positional/dimensional keys clamped by `dedupe_hotspots`
(src/app.py line 441), in source order. -/
def posKeys : List String := ["x", "y", "w", "h", "cx", "cy", "r"]

/-- One clamp step: if the key is present and float-coercible, replace
its value by the float clamped into [0,1]; otherwise leave the dict
unchanged (the `except: pass`). -/
def clampKey (hh : Hot) (key : String) : Hot :=
  match dictGet hh key with
  | Option.none => hh
  | some v =>
      match floatValue v with
      | Option.none => hh
      | some q => dictSet hh key (PVal.float (max 0 (min 1 q)))

/-- The clamp applied to a hotspot appended as a new kept region
(src/app.py lines 440-445): `hh = dict(h)` then clamp each present
positional key. -/
def clampHot (h : Hot) : Hot := posKeys.foldl clampKey h

/-- The main loop of `dedupe_hotspots` over the sorted candidates. -/
def dlLoop : List Hot → List Hot → Option (List Hot)
  | [], kept => some kept
  | h :: rest, kept =>
      match _bbox h with
      | Option.none => Option.none
      | some b =>
          match scanKept b h kept with
          | Option.none => Option.none
          | some Option.none => dlLoop rest (kept ++ [clampHot h])
          | some (some kept2) => dlLoop rest kept2

/-- Sort key of `dedupe_hotspots`: the candidate's bounding-box area
(0 is never consulted: candidates with undefined boxes abort the sort). -/
def areaD (h : Hot) : Rat := ((_bbox h).map _area).getD 0

/-- Stable insertion into a descending-area list: the new element goes
before the first element of not-strictly-greater area. -/
def insertDesc (x : Hot) : List Hot → List Hot
  | [] => [x]
  | y :: ys => if areaD x < areaD y then y :: insertDesc x ys else x :: y :: ys

/-- `sorted(hs, key=lambda h: _area(_bbox(h)), reverse=True)`: Python's
sort is stable, and any stable sort by the same key computes the same
list, so it is modelled by stable insertion sort. -/
def sortDesc : List Hot → List Hot
  | [] => []
  | x :: xs => insertDesc x (sortDesc xs)

/-- `[h for h in hotspots or [] if isinstance(h, dict)]`. -/
def hotDicts (hotspots : List PVal) : List Hot :=
  hotspots.filterMap fun v =>
    match v with
    | .dict kvs => some kvs
    | _ => Option.none

/-- `dedupe_hotspots(hotspots)` (src/app.py lines 429-447).
`Option.none` models an uncaught exception (from a sort key, a kept
bounding box, or `_merge`). -/
def dedupe_hotspots (hotspots : List PVal) : Option (List PVal) :=
  let hs := hotDicts hotspots
  if hs.all (fun h => (_bbox h).isSome) then
    match dlLoop (sortDesc hs) [] with
    | some kept => some ((kept.take 12).map PVal.dict)
    | Option.none => Option.none
  else Option.none

/-- Executable test: every present positional field of the hotspot is
float-coercible. -/
def coercibleB (h : Hot) : Bool :=
  posKeys.all fun key =>
    match dictGet h key with
    | Option.none => true
    | some v => (floatValue v).isSome

/-- Executable test: every present positional field of the hotspot is
float-coercible with value in [0,1]. -/
def inUnitB (h : Hot) : Bool :=
  posKeys.all fun key =>
    match dictGet h key with
    | Option.none => true
    | some v =>
        match floatValue v with
        | some q => decide (0 ≤ q ∧ q ≤ 1)
        | Option.none => false

/-- Every present positional field literally stores a float in [0,1]
(the state of hotspots after the clamp). -/
def Clamped01 (h : Hot) : Prop :=
  ∀ key ∈ posKeys, ∀ v, dictGet h key = some v →
    ∃ q, v = PVal.float q ∧ 0 ≤ q ∧ q ≤ 1

/-- Every present positional field is float-coercible with value in
[0,1]. -/
def InUnitP (h : Hot) : Prop :=
  ∀ key ∈ posKeys, ∀ v, dictGet h key = some v →
    ∃ q, floatValue v = some q ∧ 0 ≤ q ∧ q ≤ 1

/-- The later hotspot `c` does not merge into the earlier kept hotspot
`a`: the merge test on their bounding boxes is false. -/
def NoMergeRel (a c : Hot) : Prop :=
  ∀ ba bc, _bbox a = some ba → _bbox c = some bc → mergePred bc ba = false

/-- Descending-area ordering relation on hotspots. -/
def areaGe (a c : Hot) : Prop := areaD c ≤ areaD a

/-- Bounding-box area of an output hotspot (dicts only; other values do
not occur in outputs). -/
def areaPV : PVal → Rat
  | .dict kvs => areaD kvs
  | _ => 0

/-- `isinstance(h, dict)`. -/
def isDictP : PVal → Bool
  | .dict _ => true
  | _ => false

theorem dictGet_dictSet_same (d : List (String × PVal)) (k : String) (v : PVal) :
    dictGet (dictSet d k v) k = some v := by
  induction d with
  | nil => simp [dictSet, dictGet]
  | cons kv t ih =>
      obtain ⟨k0, v0⟩ := kv
      by_cases h : k0 = k
      · simp [dictSet, h, dictGet]
      · simp [dictSet, h, dictGet, ih]

theorem dictGet_dictSet_other (d : List (String × PVal)) (k k2 : String) (v : PVal)
    (h : k2 ≠ k) : dictGet (dictSet d k v) k2 = dictGet d k2 := by
  have h2 : ¬ k = k2 := Ne.symm h
  induction d with
  | nil => simp [dictSet, dictGet, h2]
  | cons kv t ih =>
      obtain ⟨k0, v0⟩ := kv
      by_cases h0 : k0 = k
      · subst h0
        simp [dictSet, dictGet, h2]
      · simp [dictSet, h0, dictGet, ih]

/-- C1: whenever the `dimensions` list of a fit verdict yields at least
one valid entry (per `valid_dims`: a dict whose `name` is one of the
three recognized dimension names and whose `score` coerces to a number,
coerced to an integer clamped into [0,100]), `reconcile_scores` sets
`overall_score` to `round(mean(valid scores))` (Python rounding, i.e.
half-to-even) and derives `verdict` from the threshold table
`>=80 / >=60 / >=40 / else`, with inclusive lower bounds evaluated
top-down — independently of the model-reported `overall_score` and
`verdict` fields of the input, which are discarded. -/
theorem reconcile_overall_from_dims (fit : List (String × PVal)) (dims : List VDim)
    (h1 : valid_dims (dictGet fit "dimensions") = some dims) (h2 : dims ≠ []) :
    ∃ fit2, reconcile_scores fit = some fit2 ∧
      dictGet fit2 "overall_score" = some (.int (roundHalfEven
        ((dims.map fun d => (d.score : Rat)).sum / (dims.length : Rat)))) ∧
      dictGet fit2 "verdict" = some (.str
        (if roundHalfEven ((dims.map fun d => (d.score : Rat)).sum / (dims.length : Rat)) ≥ 80
          then "Strong fit"
         else if roundHalfEven ((dims.map fun d => (d.score : Rat)).sum / (dims.length : Rat)) ≥ 60
          then "Good fit"
         else if roundHalfEven ((dims.map fun d => (d.score : Rat)).sum / (dims.length : Rat)) ≥ 40
          then "Borderline"
         else "Misaligned")) := by
  have hne : dims.isEmpty = false := by
    cases dims with
    | nil => exact absurd rfl h2
    | cons d t => rfl
  have hrec : reconcile_scores fit = some (dictSet (dictSet (dictSet fit "dimensions"
      (PVal.list (dims.map vdimToPVal))) "overall_score" (PVal.int (roundHalfEven
        ((dims.map fun d => (d.score : Rat)).sum / (dims.length : Rat)))))
      "verdict" (PVal.str (compute_verdict (roundHalfEven
        ((dims.map fun d => (d.score : Rat)).sum / (dims.length : Rat)))))) := by
    unfold reconcile_scores
    rw [h1]
    simp [hne]
  refine ⟨_, hrec, ?_, ?_⟩
  · rw [dictGet_dictSet_other _ _ _ _ (by decide), dictGet_dictSet_same]
  · rw [dictGet_dictSet_same]
    rfl

/-- Witness for C1 at the spec's own example scenario: scores 72, 55, 68
for the three dimensions give overall `round(195/3) = 65` and verdict
"Good fit", while the self-reported `overall_score = 999` and
`verdict = "nope"` are discarded. -/
theorem reconcile_overall_from_dims_witness :
    (valid_dims (dictGet
        [("overall_score", PVal.int 999), ("verdict", PVal.str "nope"),
         ("dimensions", PVal.list
           [.dict [("name", .str "Tone & Voice"), ("score", .int 72)],
            .dict [("name", .str "Visual Identity"), ("score", .int 55)],
            .dict [("name", .str "Brand-Product Relevance"), ("score", .int 68)]])]
        "dimensions") =
      some [⟨"Tone & Voice", 72, .str ""⟩, ⟨"Visual Identity", 55, .str ""⟩,
            ⟨"Brand-Product Relevance", 68, .str ""⟩] ∧
     ([⟨"Tone & Voice", 72, .str ""⟩, ⟨"Visual Identity", 55, .str ""⟩,
       (⟨"Brand-Product Relevance", 68, .str ""⟩ : VDim)] : List VDim) ≠ []) ∧
    (∃ fit2, reconcile_scores
        [("overall_score", PVal.int 999), ("verdict", PVal.str "nope"),
         ("dimensions", PVal.list
           [.dict [("name", .str "Tone & Voice"), ("score", .int 72)],
            .dict [("name", .str "Visual Identity"), ("score", .int 55)],
            .dict [("name", .str "Brand-Product Relevance"), ("score", .int 68)]])] =
        some fit2 ∧
      dictGet fit2 "overall_score" = some (.int 65) ∧
      dictGet fit2 "verdict" = some (.str "Good fit")) := by
  constructor
  · exact ⟨by decide, by decide⟩
  · obtain ⟨fit2, hr, ho, hv⟩ := reconcile_overall_from_dims
      [("overall_score", PVal.int 999), ("verdict", PVal.str "nope"),
       ("dimensions", PVal.list
         [.dict [("name", .str "Tone & Voice"), ("score", .int 72)],
          .dict [("name", .str "Visual Identity"), ("score", .int 55)],
          .dict [("name", .str "Brand-Product Relevance"), ("score", .int 68)]])]
      [⟨"Tone & Voice", 72, .str ""⟩, ⟨"Visual Identity", 55, .str ""⟩,
       ⟨"Brand-Product Relevance", 68, .str ""⟩]
      (by decide) (by decide)
    exact ⟨fit2, hr, ho.trans (by decide), hv.trans (by decide)⟩

/-- C2 counterexample: with zero valid dimensions and a reported
`overall_score` of `"n/a"` (a truthy, non-numeric string),
`reconcile_scores` raises an uncaught `ValueError` from `int()`
(modelled as `Option.none`) instead of silently correcting the value —
refuting the claim that the correction never raises for any input value
of the reported `overall_score`. -/
theorem reconcile_zero_dims_raises :
    reconcile_scores [("dimensions", PVal.list []), ("overall_score", PVal.str "n/a")] =
      Option.none := by decide

/-- C2 (amended): when the `dimensions` list yields zero valid entries,
and the reported `overall_score` is coercible by Python `int()` (after
`or 0`, which turns falsy values into 0; `int()` truncates floats toward
zero and parses integer strings), `reconcile_scores` sets
`overall_score` to that integer clamped into [0,100] and derives
`verdict` from the clamped value.  Truthy non-coercible reported values
instead raise an uncaught error (see the counterexample). -/
theorem reconcile_zero_dims_clamps (fit : List (String × PVal)) (n : Int)
    (h1 : valid_dims (dictGet fit "dimensions") = some [])
    (h2 : intValue (pyOr (dictGetD fit "overall_score" (PVal.int 0)) (PVal.int 0)) = some n) :
    ∃ fit2, reconcile_scores fit = some fit2 ∧
      dictGet fit2 "overall_score" = some (.int (max 0 (min 100 n))) ∧
      dictGet fit2 "verdict" = some (.str
        (if max 0 (min 100 n) ≥ 80 then "Strong fit"
         else if max 0 (min 100 n) ≥ 60 then "Good fit"
         else if max 0 (min 100 n) ≥ 40 then "Borderline"
         else "Misaligned")) := by
  have hrec : reconcile_scores fit = some (dictSet (dictSet fit "overall_score"
      (PVal.int (max 0 (min 100 n)))) "verdict"
      (PVal.str (compute_verdict (max 0 (min 100 n))))) := by
    unfold reconcile_scores
    rw [h1]
    simp only [List.isEmpty_nil, if_true]
    rw [h2]
  refine ⟨_, hrec, ?_, ?_⟩
  · rw [dictGet_dictSet_other _ _ _ _ (by decide), dictGet_dictSet_same]
  · rw [dictGet_dictSet_same]
    rfl

/-- Witness for C2 (amended): a report of 150 with an empty dimension
list is clamped to 100 and graded "Strong fit". -/
theorem reconcile_zero_dims_clamps_witness :
    (valid_dims (dictGet [("dimensions", PVal.list []), ("overall_score", PVal.int 150)]
        "dimensions") = some [] ∧
     intValue (pyOr (dictGetD [("dimensions", PVal.list []), ("overall_score", PVal.int 150)]
        "overall_score" (PVal.int 0)) (PVal.int 0)) = some 150) ∧
    (∃ fit2, reconcile_scores [("dimensions", PVal.list []), ("overall_score", PVal.int 150)] =
        some fit2 ∧
      dictGet fit2 "overall_score" = some (.int 100) ∧
      dictGet fit2 "verdict" = some (.str "Strong fit")) := by
  constructor
  · exact ⟨by decide, by decide⟩
  · obtain ⟨fit2, hr, ho, hv⟩ := reconcile_zero_dims_clamps
      [("dimensions", PVal.list []), ("overall_score", PVal.int 150)] 150
      (by decide) (by decide)
    exact ⟨fit2, hr, ho.trans (by decide), hv.trans (by decide)⟩

theorem take_drop_isInfix {α : Type} (l : List α) (n m : Nat) :
    (l.drop n).take m <:+: l := by
  refine ⟨l.take n, (l.drop n).drop m, ?_⟩
  rw [List.append_assoc, List.take_append_drop, List.take_append_drop]

/-- C7 counterexample: on the raw text `"{}"` a balanced `{...}` JSON
span is recoverable (the whole text parses as the JSON object `{}`), yet
`parse_json_or_fail` halts fatally, because the parsed empty dict is
falsy and rejected by `if not data` — refuting the claimed
"if and only if". -/
theorem parse_json_or_fail_empty_object_halts :
    jsonLoads [jLBrace, jRBrace] = some (.dict []) ∧
    parse_json_or_fail [jLBrace, jRBrace] = Option.none := by
  constructor
  · decide
  · decide

/-- C7 (amended): whenever `parse_json_or_fail` returns instead of
halting, the returned value is exactly `json.loads` applied to the span
from the first `{` to the last `}` of the raw text — an infix of the raw
text, so no repair beyond locating that span is performed — and that
value is truthy (a nonempty object).  Consequently, if no balanced JSON
span is recoverable the function halts; the converse direction of the
original claim fails (see the counterexample: the function also halts
when the span parses to the falsy empty object, or when the
first-`{`-to-last-`}` span covers several separate objects). -/
theorem parse_json_or_fail_returns_span_parse (raw : List Char) (j : PVal)
    (h : parse_json_or_fail raw = some j) :
    ∃ sub, braceSpan raw = some sub ∧ sub <:+: raw ∧
      jsonLoads sub = some j ∧ pyTruthy j = true := by
  unfold parse_json_or_fail at h
  cases hb : braceSpan raw with
  | none =>
      rw [hb] at h
      exact absurd h (by simp)
  | some sub =>
      rw [hb] at h
      have h2 : (match jsonLoads sub with
                 | some j0 => if pyTruthy j0 then some j0 else Option.none
                 | Option.none => Option.none) = some j := h
      cases hl : jsonLoads sub with
      | none =>
          rw [hl] at h2
          exact absurd h2 (by simp)
      | some j0 =>
          rw [hl] at h2
          by_cases ht : pyTruthy j0
          · simp only [ht, if_true] at h2
            obtain rfl : j0 = j := Option.some.inj h2
            refine ⟨sub, rfl, ?_, hl, ht⟩
            unfold braceSpan at hb
            have hb2 : (if pyFind raw jLBrace ≠ -1 ∧ pyRfind raw jRBrace ≠ -1 ∧
                  pyRfind raw jRBrace > pyFind raw jLBrace
                then some ((raw.drop (pyFind raw jLBrace).toNat).take
                  ((pyRfind raw jRBrace).toNat + 1 - (pyFind raw jLBrace).toNat))
                else Option.none) = some sub := hb
            split at hb2
            · obtain rfl : _ = sub := Option.some.inj hb2
              exact take_drop_isInfix raw _ _
            · exact absurd hb2 (by simp)
          · simp only [ht] at h2
            exact absurd h2 (by simp)

/-- Witness for C7 (amended) on the raw text `x{"a":1}y`: the function
returns the parsed object, which is exactly the parse of the infix span
`{"a":1}`. -/
theorem parse_json_or_fail_returns_span_parse_witness :
    parse_json_or_fail ['x', jLBrace, jQuote, 'a', jQuote, ':', '1', jRBrace, 'y'] =
      some (.dict [("a", .int 1)]) ∧
    (∃ sub, braceSpan ['x', jLBrace, jQuote, 'a', jQuote, ':', '1', jRBrace, 'y'] = some sub ∧
      sub <:+: ['x', jLBrace, jQuote, 'a', jQuote, ':', '1', jRBrace, 'y'] ∧
      jsonLoads sub = some (.dict [("a", .int 1)]) ∧
      pyTruthy (PVal.dict [("a", .int 1)]) = true) :=
  ⟨by decide, parse_json_or_fail_returns_span_parse
    ['x', jLBrace, jQuote, 'a', jQuote, ':', '1', jRBrace, 'y']
    (.dict [("a", .int 1)]) (by decide)⟩

/-- C9 counterexample: a first profile with `granularity = "Macro"` and
a nonempty category.  The value differs from `"macro"`, so the claim
says the refine pass is performed; the code lowercases before comparing
and performs no refine pass (the flow returns the first profile
untouched). -/
theorem need_refine_case_counterexample :
    dictGet [("granularity", PVal.str "Macro"), ("category", PVal.str "Tech")]
      "granularity" = some (.str "Macro") ∧
    "Macro" ≠ "macro" ∧
    need_refine [("granularity", PVal.str "Macro"), ("category", PVal.str "Tech")] =
      some false ∧
    refine_flow [("granularity", PVal.str "Macro"), ("category", PVal.str "Tech")]
      [("granularity", PVal.str "micro")] =
      some [("granularity", PVal.str "Macro"), ("category", PVal.str "Tech")] := by
  refine ⟨by decide, by decide, by decide, by decide⟩

/-- C9 (amended): for a first profile whose `granularity` and `category`
fields are strings, the refine pass is performed iff the lowercased
granularity differs from `"macro"` or the category is empty/whitespace;
when performed it is performed exactly once and the second result wholly
replaces the first with no merge and no re-validation (the flow returns
either the first or the second profile verbatim, chosen only by
`need_refine` on the first). -/
theorem refine_pass_decision :
    (∀ br g c, dictGet br "granularity" = some (.str g) →
      dictGet br "category" = some (.str c) →
      need_refine br = some (decide (pyLower g ≠ "macro") || decide (pyStrip c = ""))) ∧
    (∀ first refined b, need_refine first = some b →
      refine_flow first refined = some (if b then refined else first)) := by
  constructor
  · intro br g c hg hc
    unfold need_refine dictGetD
    rw [hg, hc]
    by_cases hmac : pyLower g = "macro"
    · have hor : pyOr (PVal.str c) (PVal.str "") = PVal.str c := by
        by_cases hce : c = ""
        · subst hce; rfl
        · simp [pyOr, pyTruthy, hce]
      simp only [Option.getD_some, hmac]
      simp [hor]
    · simp [hmac]
  · intro first refined b h
    cases b with
    | true => unfold refine_flow; rw [h]; rfl
    | false => unfold refine_flow; rw [h]; rfl

/-- Witness for C9 (amended): a micro-granularity first profile forces
the refine pass, and the flow returns the refined profile verbatim. -/
theorem refine_pass_decision_witness :
    need_refine [("granularity", PVal.str "micro"), ("category", PVal.str "Tech")] =
      some (decide (pyLower "micro" ≠ "macro") || decide (pyStrip "Tech" = "")) ∧
    refine_flow [("granularity", PVal.str "micro"), ("category", PVal.str "Tech")]
      [("brand", PVal.str "B")] =
      some (if (true : Bool) then [("brand", PVal.str "B")]
            else [("granularity", PVal.str "micro"), ("category", PVal.str "Tech")]) :=
  ⟨refine_pass_decision.1 _ "micro" "Tech" (by decide) (by decide),
   refine_pass_decision.2 _ _ true (by decide)⟩

theorem takeWhile_no_newline (l m : List Char) (h : ∀ c ∈ l, c ≠ '\n') :
    (l ++ '\n' :: m).takeWhile (fun c => c != '\n') = l := by
  induction l with
  | nil => simp [List.takeWhile]
  | cons c t ih =>
      have hc : (c != '\n') = true := by simp [bne_iff_ne]; exact h c (by simp)
      simp only [List.cons_append, List.takeWhile, hc]
      simp [ih fun d hd => h d (by simp [hd])]

theorem mem_dedupFirstAux (seen xs : List String) (x : String) :
    x ∈ dedupFirstAux seen xs ↔ x ∈ xs ∧ x ∉ seen := by
  induction xs generalizing seen with
  | nil => simp [dedupFirstAux]
  | cons y t ih =>
      by_cases hy : y ∈ seen
      · simp only [dedupFirstAux, if_pos hy, ih]
        constructor
        · exact fun hh => ⟨List.mem_cons_of_mem _ hh.1, hh.2⟩
        · rintro ⟨hmem, hns⟩
          rcases List.mem_cons.mp hmem with rfl | hmem2
          · exact absurd hy hns
          · exact ⟨hmem2, hns⟩
      · simp only [dedupFirstAux, if_neg hy, List.mem_cons, ih]
        constructor
        · rintro (rfl | ⟨hmem, hns⟩)
          · exact ⟨Or.inl rfl, hy⟩
          · exact ⟨Or.inr hmem, fun hc => hns (Or.inr hc)⟩
        · rintro ⟨rfl | hmem, hns⟩
          · exact Or.inl rfl
          · by_cases hxy : x = y
            · exact Or.inl hxy
            · exact Or.inr ⟨hmem, fun hc => hc.elim hxy hns⟩

theorem dedupFirstAux_sublist (seen xs : List String) :
    (dedupFirstAux seen xs).Sublist xs := by
  induction xs generalizing seen with
  | nil => simp [dedupFirstAux]
  | cons y t ih =>
      by_cases hy : y ∈ seen
      · simpa [dedupFirstAux, hy] using (ih seen).cons y
      · simpa [dedupFirstAux, hy] using (ih (y :: seen)).cons₂ y

theorem dedupFirstAux_nodup (seen xs : List String) :
    (dedupFirstAux seen xs).Nodup := by
  induction xs generalizing seen with
  | nil => simp [dedupFirstAux]
  | cons y t ih =>
      by_cases hy : y ∈ seen
      · simpa [dedupFirstAux, hy] using ih seen
      · simp only [dedupFirstAux, if_neg hy, List.nodup_cons]
        refine ⟨fun hc => ?_, ih (y :: seen)⟩
        exact ((mem_dedupFirstAux _ _ _).mp hc).2 (by simp)

theorem sectionTag_of_block (tag rest : String) (h : ∀ c ∈ tag.data, c ≠ '\n')
    (pre : String) (hpre : pre.data = tag.data ++ ['\n']) :
    sectionTag (pre ++ rest) = tag := by
  unfold sectionTag
  have hd : (pre ++ rest).data = tag.data ++ '\n' :: rest.data := by
    show pre.data ++ rest.data = _
    rw [hpre, List.append_assoc]
    rfl
  rw [hd, takeWhile_no_newline _ _ h]

theorem sectionTag_title (t : String) : sectionTag ("[TITLE]\n" ++ t) = "[TITLE]" :=
  sectionTag_of_block _ _ (by decide) _ (by decide)

theorem sectionTag_headlines (t : String) :
    sectionTag ("[HEADLINES]\n- " ++ t) = "[HEADLINES]" := by
  have h : "[HEADLINES]\n- " ++ t = "[HEADLINES]\n" ++ ("- " ++ t) := rfl
  rw [h]
  exact sectionTag_of_block _ _ (by decide) _ (by decide)

theorem sectionTag_emphasis (t : String) :
    sectionTag ("[EMPHASIS]\n- " ++ t) = "[EMPHASIS]" := by
  have h : "[EMPHASIS]\n- " ++ t = "[EMPHASIS]\n" ++ ("- " ++ t) := rfl
  rw [h]
  exact sectionTag_of_block _ _ (by decide) _ (by decide)

theorem sectionTag_list (t : String) : sectionTag ("[LIST]\n- " ++ t) = "[LIST]" := by
  have h : "[LIST]\n- " ++ t = "[LIST]\n" ++ ("- " ++ t) := rfl
  rw [h]
  exact sectionTag_of_block _ _ (by decide) _ (by decide)

theorem sectionTag_body (t : String) : sectionTag ("[BODY]\n" ++ t) = "[BODY]" :=
  sectionTag_of_block _ _ (by decide) _ (by decide)

/-- C8 counterexample: on a document with no extractable text the pack
still contains a (empty) `[BODY]` section — the `[BODY]` block is
appended unconditionally by the code, refuting "every empty section is
omitted from the pack". -/
theorem build_read_pack_empty_body_kept :
    build_read_pack ⟨"", [], [], [], ""⟩ 14000 = "[BODY]\n" ∧
    read_pack_blocks ⟨"", [], [], [], ""⟩ 14000 = ["[BODY]\n"] := by
  exact ⟨by decide, by decide⟩

/-- C8 (amended): for every parsed document and body budget, the pack's
section list consists of `[TITLE]`, `[HEADLINES]`, `[EMPHASIS]`,
`[LIST]` — each present iff its extracted content is nonempty — followed
unconditionally by `[BODY]` (present even when empty, contrary to the
original claim); the `[BODY]` text is the page text truncated to at most
`max_body` characters; headings (and, by the same function, emphasis)
are deduplicated preserving first occurrence; list items are capped to
the first 300 entries verbatim, with no deduplication. -/
theorem read_pack_structure (soup : Soup) (n : Nat) :
    ((read_pack_blocks soup n).map sectionTag =
      (if pyStrip soup.title ≠ "" then ["[TITLE]"] else []) ++
      (if soup.heads.filter (fun s => s ≠ "") ≠ [] then ["[HEADLINES]"] else []) ++
      (if soup.emph.filter (fun s => s ≠ "") ≠ [] then ["[EMPHASIS]"] else []) ++
      (if soup.lis.filter (fun s => s ≠ "") ≠ [] then ["[LIST]"] else []) ++
      ["[BODY]"]) ∧
    (read_pack_blocks soup n).getLast? =
      some ("[BODY]\n" ++ String.mk (soup.body.data.take n)) ∧
    (String.mk (soup.body.data.take n)).length ≤ n ∧
    (dedupFirst (soup.heads.filter fun s => s ≠ "")).Nodup ∧
    (dedupFirst (soup.heads.filter fun s => s ≠ "")).Sublist
      (soup.heads.filter fun s => s ≠ "") ∧
    (∀ s, s ∈ dedupFirst (soup.heads.filter fun t => t ≠ "") ↔
      s ∈ soup.heads.filter fun t => t ≠ "") ∧
    ((soup.lis.filter (fun s => s ≠ "")).take 300).length ≤ 300 ∧
    ((soup.lis.filter (fun s => s ≠ "")).take 300) <+:
      (soup.lis.filter fun s => s ≠ "") := by
  refine ⟨?_, ?_, ?_, dedupFirstAux_nodup _ _, dedupFirstAux_sublist _ _, ?_, ?_, ?_⟩
  · unfold read_pack_blocks
    simp only [List.map_append]
    split_ifs <;>
      simp [sectionTag_title, sectionTag_headlines, sectionTag_emphasis,
        sectionTag_list, sectionTag_body]
  · unfold read_pack_blocks
    simp only [← List.append_assoc]
    rw [List.getLast?_concat]
  · show (soup.body.data.take n).length ≤ n
    rw [List.length_take]
    exact min_le_left _ _
  · intro s
    rw [dedupFirst, mem_dedupFirstAux]
    simp
  · rw [List.length_take]
    exact min_le_left _ _
  · exact List.take_prefix _ _

theorem dictSet_self (d : List (String × PVal)) (k : String) (v : PVal)
    (h : dictGet d k = some v) : dictSet d k v = d := by
  induction d with
  | nil => simp [dictGet] at h
  | cons kv t ih =>
      obtain ⟨k0, v0⟩ := kv
      by_cases h0 : k0 = k
      · subst h0
        simp [dictGet] at h
        simp [dictSet, h]
      · simp [dictGet, h0] at h
        simp [dictSet, h0, ih h]

theorem posKeys_ne_special (key : String) (hk : key ∈ posKeys) :
    key ≠ "label" ∧ key ≠ "risks" ∧ key ≠ "suggested_edits" := by
  fin_cases hk <;> exact ⟨by decide, by decide, by decide⟩

theorem dictGet_mergeLabel_other (a b : Hot) (key : String) (h : key ≠ "label") :
    dictGet (mergeLabel a b) key = dictGet a key := by
  unfold mergeLabel
  split
  · exact dictGet_dictSet_other _ _ _ _ h
  · rfl

theorem merge_cases (a b m : Hot) (hm : _merge a b = some m) :
    ∃ ra rb ea eb,
      starUnpack (dictGet (mergeLabel a b) "risks") = some ra ∧
      starUnpack (dictGet b "risks") = some rb ∧
      starUnpack (dictGet (dictSet (mergeLabel a b) "risks"
        (PVal.list (setDedupP (ra ++ rb)))) "suggested_edits") = some ea ∧
      starUnpack (dictGet b "suggested_edits") = some eb ∧
      m = dictSet (dictSet (mergeLabel a b) "risks" (PVal.list (setDedupP (ra ++ rb))))
            "suggested_edits" (PVal.list (setDedupP ea ++ eb)) := by
  unfold _merge at hm
  cases h1 : starUnpack (dictGet (mergeLabel a b) "risks") with
  | none => rw [h1] at hm; exact absurd hm (by simp)
  | some ra =>
      rw [h1] at hm
      cases h2 : starUnpack (dictGet b "risks") with
      | none => rw [h2] at hm; exact absurd hm (by simp)
      | some rb =>
          rw [h2] at hm
          have hm2 : (if (ra ++ rb).all pyHashable = true then
              mergeEdits (dictSet (mergeLabel a b) "risks"
                (PVal.list (setDedupP (ra ++ rb)))) b
              else Option.none) = some m := hm
          by_cases hh : (ra ++ rb).all pyHashable = true
          · rw [if_pos hh] at hm2
            unfold mergeEdits at hm2
            cases h3 : starUnpack (dictGet (dictSet (mergeLabel a b) "risks"
                (PVal.list (setDedupP (ra ++ rb)))) "suggested_edits") with
            | none => rw [h3] at hm2; exact absurd hm2 (by simp)
            | some ea =>
                rw [h3] at hm2
                cases h4 : starUnpack (dictGet b "suggested_edits") with
                | none => rw [h4] at hm2; exact absurd hm2 (by simp)
                | some eb =>
                    rw [h4] at hm2
                    have hm3 : (if ea.all pyHashable = true then
                        some (dictSet (dictSet (mergeLabel a b) "risks"
                          (PVal.list (setDedupP (ra ++ rb)))) "suggested_edits"
                          (PVal.list (setDedupP ea ++ eb)))
                        else Option.none) = some m := hm2
                    by_cases hh2 : ea.all pyHashable = true
                    · rw [if_pos hh2] at hm3
                      exact ⟨ra, rb, ea, eb, rfl, rfl, h3, rfl, (Option.some.inj hm3).symm⟩
                    · rw [if_neg hh2] at hm3
                      exact absurd hm3 (by simp)
          · rw [if_neg hh] at hm2
            exact absurd hm2 (by simp)

theorem dictGet_merge_other (a b m : Hot) (key : String) (hm : _merge a b = some m)
    (h1 : key ≠ "label") (h2 : key ≠ "risks") (h3 : key ≠ "suggested_edits") :
    dictGet m key = dictGet a key := by
  obtain ⟨ra, rb, ea, eb, _, _, _, _, rfl⟩ := merge_cases a b m hm
  rw [dictGet_dictSet_other _ _ _ _ h3, dictGet_dictSet_other _ _ _ _ h2,
    dictGet_mergeLabel_other _ _ _ h1]

theorem bbox_congr (h1 h2 : Hot)
    (hs : dictGet h1 "shape" = dictGet h2 "shape")
    (hp : ∀ key ∈ posKeys, ∀ dflt : PVal,
      floatValue (dictGetD h1 key dflt) = floatValue (dictGetD h2 key dflt)) :
    _bbox h1 = _bbox h2 := by
  have hs2 : dictGetD h1 "shape" PVal.none = dictGetD h2 "shape" PVal.none := by
    rw [dictGetD, dictGetD, hs]
  unfold _bbox shapeLower
  rw [hs2,
    hp "x" (by decide) (PVal.int 0), hp "y" (by decide) (PVal.int 0),
    hp "w" (by decide) (PVal.int 0), hp "h" (by decide) (PVal.int 0),
    hp "cx" (by decide) (PVal.float (1/2)), hp "cy" (by decide) (PVal.float (1/2)),
    hp "r" (by decide) (PVal.float (1/10))]

theorem bbox_merge (a b m : Hot) (hm : _merge a b = some m) : _bbox m = _bbox a := by
  refine bbox_congr m a ?_ ?_
  · exact dictGet_merge_other a b m "shape" hm (by decide) (by decide) (by decide)
  · intro key hk dflt
    obtain ⟨n1, n2, n3⟩ := posKeys_ne_special key hk
    rw [dictGetD, dictGet_merge_other a b m key hm n1 n2 n3, dictGetD]

theorem areaD_merge (a b m : Hot) (hm : _merge a b = some m) : areaD m = areaD a := by
  unfold areaD
  rw [bbox_merge a b m hm]

theorem clamped_merge (a b m : Hot) (hm : _merge a b = some m) (hc : Clamped01 a) :
    Clamped01 m := by
  intro key hk v hv
  obtain ⟨n1, n2, n3⟩ := posKeys_ne_special key hk
  rw [dictGet_merge_other a b m key hm n1 n2 n3] at hv
  exact hc key hk v hv

theorem dictGet_clampKey_other (hh : Hot) (key k2 : String) (h : k2 ≠ key) :
    dictGet (clampKey hh key) k2 = dictGet hh k2 := by
  cases hg : dictGet hh key with
  | none => simp [clampKey, hg]
  | some v =>
      cases hf : floatValue v with
      | none => simp [clampKey, hg, hf]
      | some q => simp [clampKey, hg, hf, dictGet_dictSet_other _ _ _ _ h]

theorem dictGet_foldl_clampKey_other (ks : List String) (h : Hot) (key : String)
    (hk : key ∉ ks) : dictGet (ks.foldl clampKey h) key = dictGet h key := by
  induction ks generalizing h with
  | nil => rfl
  | cons k1 t ih =>
      have hne : key ≠ k1 := fun he => hk (he ▸ List.mem_cons_self k1 t)
      have hnt : key ∉ t := fun he => hk (List.mem_cons_of_mem _ he)
      rw [List.foldl_cons, ih (clampKey h k1) hnt, dictGet_clampKey_other h k1 key hne]

theorem dictGet_foldl_clampKey_mem (ks : List String) (hnd : ks.Nodup) (h : Hot)
    (key : String) (hk : key ∈ ks) :
    dictGet (ks.foldl clampKey h) key =
      match dictGet h key with
      | Option.none => Option.none
      | some v =>
          match floatValue v with
          | Option.none => some v
          | some q => some (PVal.float (max 0 (min 1 q))) := by
  induction ks generalizing h with
  | nil => exact absurd hk (by simp)
  | cons k1 t ih =>
      rw [List.foldl_cons]
      rcases List.mem_cons.mp hk with rfl | hkt
      · have hnt : key ∉ t := (List.nodup_cons.mp hnd).1
        rw [dictGet_foldl_clampKey_other t _ key hnt]
        cases hv : dictGet h key with
        | none => simp [clampKey, hv]
        | some v =>
            cases hf : floatValue v with
            | none => simp [clampKey, hv, hf]
            | some q => simp [clampKey, hv, hf, dictGet_dictSet_same]
      · have hne : key ≠ k1 := by
          rintro rfl
          exact (List.nodup_cons.mp hnd).1 hkt
        rw [ih (List.nodup_cons.mp hnd).2 (clampKey h k1) hkt,
          dictGet_clampKey_other h k1 key hne]

theorem posKeys_nodup : posKeys.Nodup := by decide

theorem clampHot_get_other (h : Hot) (key : String) (hk : key ∉ posKeys) :
    dictGet (clampHot h) key = dictGet h key :=
  dictGet_foldl_clampKey_other posKeys h key hk

theorem clampHot_get_mem (h : Hot) (key : String) (hk : key ∈ posKeys) :
    dictGet (clampHot h) key =
      match dictGet h key with
      | Option.none => Option.none
      | some v =>
          match floatValue v with
          | Option.none => some v
          | some q => some (PVal.float (max 0 (min 1 q))) :=
  dictGet_foldl_clampKey_mem posKeys posKeys_nodup h key hk

theorem coercibleB_spec (h : Hot) (hc : coercibleB h = true) (key : String)
    (hk : key ∈ posKeys) (v : PVal) (hv : dictGet h key = some v) :
    (floatValue v).isSome := by
  have := (List.all_eq_true.mp hc) key hk
  simp only [hv] at this
  exact this

theorem inUnitB_spec (h : Hot) (hc : inUnitB h = true) (key : String)
    (hk : key ∈ posKeys) (v : PVal) (hv : dictGet h key = some v) :
    ∃ q, floatValue v = some q ∧ 0 ≤ q ∧ q ≤ 1 := by
  have := (List.all_eq_true.mp hc) key hk
  simp only [hv] at this
  cases hf : floatValue v with
  | none =>
      simp only [hf] at this
      exact absurd this (by simp)
  | some q =>
      simp only [hf] at this
      exact ⟨q, rfl, of_decide_eq_true this⟩

theorem clampHot_clamped (h : Hot) (hc : coercibleB h = true) :
    Clamped01 (clampHot h) := by
  intro key hk v hv
  rw [clampHot_get_mem h key hk] at hv
  cases hg : dictGet h key with
  | none =>
      simp only [hg] at hv
      exact absurd hv (by simp)
  | some w =>
      simp only [hg] at hv
      cases hf : floatValue w with
      | none =>
          have := coercibleB_spec h hc key hk w hg
          rw [hf] at this
          exact absurd this (by simp)
      | some q =>
          simp only [hf] at hv
          refine ⟨max 0 (min 1 q), (Option.some.inj hv).symm, le_max_left _ _, ?_⟩
          exact max_le (by norm_num) (min_le_left _ _)

theorem clampHot_id (h : Hot) (hc : Clamped01 h) : clampHot h = h := by
  have hgen : ∀ ks : List String, (∀ key ∈ ks, key ∈ posKeys) →
      List.foldl clampKey h ks = h := by
    intro ks
    induction ks with
    | nil => intro _; rfl
    | cons k1 t ih =>
        intro hks
        have hstep : clampKey h k1 = h := by
          cases hg : dictGet h k1 with
          | none => simp [clampKey, hg]
          | some v =>
              obtain ⟨q, rfl, hq0, hq1⟩ := hc k1 (hks k1 (by simp)) v hg
              have hfv : floatValue (PVal.float q) = some q := rfl
              have hclamp : max 0 (min 1 q) = q := by
                rw [min_eq_right hq1, max_eq_right hq0]
              simp [clampKey, hg, hfv, hclamp, dictSet_self h k1 (PVal.float q) hg]
        rw [List.foldl_cons, hstep, ih fun key hkey => hks key (by simp [hkey])]
  exact hgen posKeys fun key hkey => hkey

theorem inUnitB_coercibleB (h : Hot) (hin : inUnitB h = true) : coercibleB h = true := by
  rw [coercibleB, List.all_eq_true]
  intro key hk
  cases hg : dictGet h key with
  | none => simp
  | some v =>
      obtain ⟨q, hq, _, _⟩ := inUnitB_spec h hin key hk v hg
      simp [hq]

theorem bbox_clampHot (h : Hot) (hin : inUnitB h = true) : _bbox (clampHot h) = _bbox h := by
  refine bbox_congr (clampHot h) h ?_ ?_
  · exact clampHot_get_other h "shape" (by decide)
  · intro key hk dflt
    rw [dictGetD, dictGetD, clampHot_get_mem h key hk]
    cases hg : dictGet h key with
    | none => simp [hg]
    | some v =>
        obtain ⟨q, hq, hq0, hq1⟩ := inUnitB_spec h hin key hk v hg
        have hclamp : max 0 (min 1 q) = q := by
          rw [min_eq_right hq1, max_eq_right hq0]
        simp only [hg, hq, hclamp, Option.getD_some]
        rfl

theorem areaD_clampHot (h : Hot) (hin : inUnitB h = true) :
    areaD (clampHot h) = areaD h := by
  unfold areaD
  rw [bbox_clampHot h hin]

theorem clamped_inUnitB (h : Hot) (hc : Clamped01 h) : inUnitB h = true := by
  rw [inUnitB, List.all_eq_true]
  intro key hk
  cases hg : dictGet h key with
  | none => simp
  | some v =>
      obtain ⟨q, rfl, hq0, hq1⟩ := hc key hk v hg
      have : floatValue (PVal.float q) = some q := rfl
      simp [this, hq0, hq1]

theorem scan_none_of (b : BBox) (h : Hot) (kept : List Hot)
    (hall : ∀ k ∈ kept, ∃ bk, _bbox k = some bk ∧ mergePred b bk = false) :
    scanKept b h kept = some Option.none := by
  induction kept with
  | nil => rfl
  | cons k ks ih =>
      obtain ⟨bk, hbk, hpred⟩ := hall k (by simp)
      have ihv := ih fun k2 hk2 => hall k2 (by simp [hk2])
      simp only [scanKept, hbk, hpred, Bool.false_eq_true, if_false, ihv]

theorem scan_none_inv (b : BBox) (h : Hot) (kept : List Hot)
    (hs : scanKept b h kept = some Option.none) :
    ∀ k ∈ kept, ∃ bk, _bbox k = some bk ∧ mergePred b bk = false := by
  induction kept with
  | nil => intro k hk; simp at hk
  | cons k0 ks ih =>
      intro k hk
      cases hbk : _bbox k0 with
      | none =>
          simp only [scanKept, hbk] at hs
          exact absurd hs (by simp)
      | some bk =>
          by_cases hp : mergePred b bk = true
          · simp only [scanKept, hbk, hp, if_true] at hs
            cases hm : _merge k0 h with
            | none =>
                simp only [hm] at hs
                exact absurd hs (by simp)
            | some m =>
                simp only [hm] at hs
                exact absurd hs (by simp)
          · have hp2 : mergePred b bk = false := by
              cases hmp : mergePred b bk
              · rfl
              · exact absurd hmp hp
            simp only [scanKept, hbk, hp2, Bool.false_eq_true, if_false] at hs
            cases hscan : scanKept b h ks with
            | none =>
                simp only [hscan] at hs
                exact absurd hs (by simp)
            | some o =>
                cases o with
                | none =>
                    rcases List.mem_cons.mp hk with rfl | hks
                    · exact ⟨bk, hbk, hp2⟩
                    · exact ih hscan k hks
                | some ks2 =>
                    simp only [hscan] at hs
                    exact absurd hs (by simp)

theorem scan_merge_shape (b : BBox) (h : Hot) (kept kept2 : List Hot)
    (hs : scanKept b h kept = some (some kept2)) :
    ∃ pre k post m bk, kept = pre ++ k :: post ∧ kept2 = pre ++ m :: post ∧
      _bbox k = some bk ∧ mergePred b bk = true ∧ _merge k h = some m := by
  induction kept generalizing kept2 with
  | nil => simp [scanKept] at hs
  | cons k0 ks ih =>
      cases hbk : _bbox k0 with
      | none =>
          simp only [scanKept, hbk] at hs
          exact absurd hs (by simp)
      | some bk =>
          by_cases hp : mergePred b bk = true
          · simp only [scanKept, hbk, hp, if_true] at hs
            cases hm : _merge k0 h with
            | none =>
                simp only [hm] at hs
                exact absurd hs (by simp)
            | some m =>
                simp only [hm, Option.some.injEq] at hs
                exact ⟨[], k0, ks, m, bk, rfl, by simp [← hs], hbk, hp, hm⟩
          · have hp2 : mergePred b bk = false := by
              cases hmp : mergePred b bk
              · rfl
              · exact absurd hmp hp
            simp only [scanKept, hbk, hp2, Bool.false_eq_true, if_false] at hs
            cases hscan : scanKept b h ks with
            | none =>
                simp only [hscan] at hs
                exact absurd hs (by simp)
            | some o =>
                cases o with
                | none =>
                    simp only [hscan] at hs
                    exact absurd hs (by simp)
                | some ks2 =>
                    simp only [hscan, Option.some.injEq] at hs
                    obtain ⟨pre, k, post, m, bk2, hkeq, hk2eq, h3, h4, h5⟩ := ih ks2 hscan
                    exact ⟨k0 :: pre, k, post, m, bk2, by simp [hkeq],
                      by simp [← hs, hk2eq], h3, h4, h5⟩

theorem pairwise_replace_bbox (R : Option BBox → Option BBox → Prop)
    (pre post : List Hot) (k m : Hot) (hbm : _bbox m = _bbox k)
    (hp : (pre ++ k :: post).Pairwise fun a c => R (_bbox a) (_bbox c)) :
    (pre ++ m :: post).Pairwise fun a c => R (_bbox a) (_bbox c) := by
  rw [List.pairwise_append] at hp ⊢
  obtain ⟨h1, h2, h3⟩ := hp
  rw [List.pairwise_cons] at h2 ⊢
  refine ⟨h1, ⟨?_, h2.2⟩, ?_⟩
  · intro c hc
    have := h2.1 c hc
    rw [hbm]
    exact this
  · intro a ha c hc
    rcases List.mem_cons.mp hc with rfl | hcp
    · have := h3 a ha k (by simp)
      rw [hbm]
      exact this
    · exact h3 a ha c (by simp [hcp])

theorem dlLoop_clamped (L : List Hot) : ∀ (kept kept2 : List Hot),
    dlLoop L kept = some kept2 →
    (∀ h ∈ L, coercibleB h = true) → (∀ k ∈ kept, Clamped01 k) →
    ∀ k ∈ kept2, Clamped01 k := by
  induction L with
  | nil =>
      intro kept kept2 hd hL hk
      obtain rfl : kept = kept2 := Option.some.inj hd
      exact hk
  | cons h rest ih =>
      intro kept kept2 hd hL hk
      cases hb : _bbox h with
      | none =>
          simp only [dlLoop, hb] at hd
          exact absurd hd (by simp)
      | some b =>
          simp only [dlLoop, hb] at hd
          cases hscan : scanKept b h kept with
          | none =>
              simp only [hscan] at hd
              exact absurd hd (by simp)
          | some o =>
              cases o with
              | none =>
                  simp only [hscan] at hd
                  refine ih (kept ++ [clampHot h]) kept2 hd
                    (fun h2 hh2 => hL h2 (by simp [hh2])) ?_
                  intro k hkk
                  rcases List.mem_append.mp hkk with hk1 | hk2
                  · exact hk k hk1
                  · obtain rfl : k = clampHot h := by simpa using hk2
                    exact clampHot_clamped h (hL h (by simp))
              | some kept' =>
                  simp only [hscan] at hd
                  refine ih kept' kept2 hd (fun h2 hh2 => hL h2 (by simp [hh2])) ?_
                  obtain ⟨pre, k0, post, m, bk, hkeq, hk2eq, hbk, hpred, hm⟩ :=
                    scan_merge_shape b h kept kept' hscan
                  subst hkeq
                  subst hk2eq
                  intro k hkk
                  rcases List.mem_append.mp hkk with hk1 | hk2
                  · exact hk k (by simp [hk1])
                  · rcases List.mem_cons.mp hk2 with rfl | hk3
                    · exact clamped_merge k0 h k hm (hk k0 (by simp))
                    · exact hk k (by simp [hk3])

theorem dlLoop_invariants (L : List Hot) : ∀ (kept kept2 : List Hot),
    dlLoop L kept = some kept2 →
    (∀ h ∈ L, inUnitB h = true) →
    L.Pairwise areaGe →
    (∀ k ∈ kept, Clamped01 k ∧ (_bbox k).isSome) →
    kept.Pairwise NoMergeRel →
    kept.Pairwise areaGe →
    (∀ k ∈ kept, ∀ h2 ∈ L, areaD h2 ≤ areaD k) →
    (∀ k ∈ kept2, Clamped01 k ∧ (_bbox k).isSome) ∧
      kept2.Pairwise NoMergeRel ∧ kept2.Pairwise areaGe := by
  induction L with
  | nil =>
      intro kept kept2 hd _ _ hk1 hk2 hk3 _
      obtain rfl : kept = kept2 := Option.some.inj hd
      exact ⟨hk1, hk2, hk3⟩
  | cons h rest ih =>
      intro kept kept2 hd hL hLp hk1 hk2 hk3 hcross
      cases hb : _bbox h with
      | none =>
          simp only [dlLoop, hb] at hd
          exact absurd hd (by simp)
      | some b =>
          simp only [dlLoop, hb] at hd
          have hinh : inUnitB h = true := hL h (by simp)
          have hbc : _bbox (clampHot h) = some b := by rw [bbox_clampHot h hinh, hb]
          have hairc : areaD (clampHot h) = areaD h := areaD_clampHot h hinh
          cases hscan : scanKept b h kept with
          | none =>
              simp only [hscan] at hd
              exact absurd hd (by simp)
          | some o =>
              cases o with
              | none =>
                  simp only [hscan] at hd
                  have hnm := scan_none_inv b h kept hscan
                  refine ih (kept ++ [clampHot h]) kept2 hd
                    (fun h2 hh2 => hL h2 (by simp [hh2])) (List.Pairwise.sublist
                      (by simp) hLp) ?_ ?_ ?_ ?_
                  · intro k hkk
                    rcases List.mem_append.mp hkk with hka | hkb
                    · exact hk1 k hka
                    · obtain rfl : k = clampHot h := by simpa using hkb
                      refine ⟨clampHot_clamped h (inUnitB_coercibleB h hinh), ?_⟩
                      rw [hbc]
                      rfl
                  · rw [List.pairwise_append]
                    refine ⟨hk2, by simp, ?_⟩
                    intro a ha c hc
                    obtain rfl : c = clampHot h := by simpa using hc
                    intro ba bc hba hbcx
                    obtain ⟨bk, hbk, hpred⟩ := hnm a ha
                    obtain rfl : ba = bk := by
                      rw [hba] at hbk
                      exact Option.some.inj hbk
                    obtain rfl : bc = b := by
                      rw [hbc] at hbcx
                      exact (Option.some.inj hbcx).symm
                    exact hpred
                  · rw [List.pairwise_append]
                    refine ⟨hk3, by simp, ?_⟩
                    intro a ha c hc
                    obtain rfl : c = clampHot h := by simpa using hc
                    show areaD (clampHot h) ≤ areaD a
                    rw [hairc]
                    exact hcross a ha h (by simp)
                  · intro k hkk h2 hh2
                    rcases List.mem_append.mp hkk with hka | hkb
                    · exact hcross k hka h2 (by simp [hh2])
                    · obtain rfl : k = clampHot h := by simpa using hkb
                      rw [hairc]
                      exact (List.pairwise_cons.mp hLp).1 h2 hh2
              | some kept' =>
                  simp only [hscan] at hd
                  obtain ⟨pre, k0, post, m, bk, hkeq, hk2eq, hbk, hpred, hm⟩ :=
                    scan_merge_shape b h kept kept' hscan
                  subst hkeq
                  subst hk2eq
                  have hbm : _bbox m = _bbox k0 := bbox_merge k0 h m hm
                  have ham : areaD m = areaD k0 := areaD_merge k0 h m hm
                  refine ih (pre ++ m :: post) kept2 hd
                    (fun h2 hh2 => hL h2 (by simp [hh2]))
                    (List.Pairwise.sublist (by simp) hLp) ?_ ?_ ?_ ?_
                  · intro k hkk
                    rcases List.mem_append.mp hkk with hka | hkb
                    · exact hk1 k (by simp [hka])
                    · rcases List.mem_cons.mp hkb with rfl | hkc
                      · refine ⟨clamped_merge k0 h k hm (hk1 k0 (by simp)).1, ?_⟩
                        rw [hbm]
                        exact (hk1 k0 (by simp)).2
                      · exact hk1 k (by simp [hkc])
                  · exact pairwise_replace_bbox
                      (fun o1 o2 => ∀ ba bc, o1 = some ba → o2 = some bc →
                        mergePred bc ba = false) pre post k0 m hbm hk2
                  · exact pairwise_replace_bbox
                      (fun o1 o2 => ((o2.map _area).getD 0) ≤ ((o1.map _area).getD 0))
                      pre post k0 m hbm hk3
                  · intro k hkk h2 hh2
                    rcases List.mem_append.mp hkk with hka | hkb
                    · exact hcross k (by simp [hka]) h2 (by simp [hh2])
                    · rcases List.mem_cons.mp hkb with rfl | hkc
                      · rw [ham]
                        exact hcross k0 (by simp) h2 (by simp [hh2])
                      · exact hcross k (by simp [hkc]) h2 (by simp [hh2])

theorem dlLoop_fixed (L : List Hot) : ∀ pre : List Hot,
    (pre ++ L).Pairwise NoMergeRel →
    (∀ k ∈ pre ++ L, Clamped01 k ∧ (_bbox k).isSome) →
    dlLoop L pre = some (pre ++ L) := by
  induction L with
  | nil => intro pre _ _; simp [dlLoop]
  | cons h rest ih =>
      intro pre hp hk
      obtain ⟨hcl, hbs⟩ := hk h (by simp)
      cases hb : _bbox h with
      | none => rw [hb] at hbs; exact absurd hbs (by simp)
      | some b =>
          have hscan : scanKept b h pre = some Option.none := by
            refine scan_none_of b h pre ?_
            intro k hkp
            obtain ⟨_, hbs2⟩ := hk k (by simp [hkp])
            cases hbk : _bbox k with
            | none => rw [hbk] at hbs2; exact absurd hbs2 (by simp)
            | some bk =>
                refine ⟨bk, rfl, ?_⟩
                have hrel : NoMergeRel k h := by
                  rw [List.pairwise_append] at hp
                  exact hp.2.2 k hkp h (by simp)
                exact hrel bk b hbk hb
          have hcid : clampHot h = h := clampHot_id h hcl
          have hstep : dlLoop (h :: rest) pre = dlLoop rest (pre ++ [h]) := by
            simp only [dlLoop, hb, hscan, hcid]
          rw [hstep]
          have hassoc : pre ++ h :: rest = (pre ++ [h]) ++ rest := by simp
          rw [hassoc] at hp hk ⊢
          exact ih (pre ++ [h]) hp hk

theorem insertDesc_perm (x : Hot) (l : List Hot) : (insertDesc x l).Perm (x :: l) := by
  induction l with
  | nil => rfl
  | cons y ys ih =>
      by_cases hlt : areaD x < areaD y
      · simp only [insertDesc, if_pos hlt]
        exact (ih.cons y).trans (List.Perm.swap x y ys)
      · simp only [insertDesc, if_neg hlt]
        exact List.Perm.refl _

theorem insertDesc_sorted (x : Hot) (l : List Hot) (hl : l.Pairwise areaGe) :
    (insertDesc x l).Pairwise areaGe := by
  induction l with
  | nil => simp [insertDesc, List.pairwise_cons]
  | cons y ys ih =>
      rw [List.pairwise_cons] at hl
      by_cases hlt : areaD x < areaD y
      · simp only [insertDesc, if_pos hlt]
        rw [List.pairwise_cons]
        refine ⟨?_, ih hl.2⟩
        intro c hc
        have hmem : c ∈ x :: ys := (insertDesc_perm x ys).mem_iff.mp hc
        rcases List.mem_cons.mp hmem with rfl | hcy
        · exact le_of_lt hlt
        · exact hl.1 c hcy
      · simp only [insertDesc, if_neg hlt]
        rw [List.pairwise_cons]
        refine ⟨?_, List.pairwise_cons.mpr hl⟩
        intro c hc
        rcases List.mem_cons.mp hc with rfl | hcy
        · exact le_of_not_lt hlt
        · exact le_trans (hl.1 c hcy) (le_of_not_lt hlt)

theorem sortDesc_perm (l : List Hot) : (sortDesc l).Perm l := by
  induction l with
  | nil => rfl
  | cons x xs ih => exact (insertDesc_perm x (sortDesc xs)).trans (ih.cons x)

theorem sortDesc_sorted (l : List Hot) : (sortDesc l).Pairwise areaGe := by
  induction l with
  | nil => simp [sortDesc]
  | cons x xs ih => exact insertDesc_sorted x (sortDesc xs) ih

theorem sortDesc_of_sorted (l : List Hot) (hl : l.Pairwise areaGe) : sortDesc l = l := by
  induction l with
  | nil => rfl
  | cons x xs ih =>
      rw [List.pairwise_cons] at hl
      show insertDesc x (sortDesc xs) = x :: xs
      rw [ih hl.2]
      cases xs with
      | nil => rfl
      | cons y ys =>
          have : ¬ areaD x < areaD y := not_lt_of_le (hl.1 y (by simp))
          simp [insertDesc, this]

theorem sortDesc_eq_of_perm (l1 l2 : List Hot) (hp : l1.Perm l2)
    (hd : l1.Pairwise fun a c => areaD a ≠ areaD c) : sortDesc l1 = sortDesc l2 := by
  have hperm : (sortDesc l1).Perm (sortDesc l2) :=
    (sortDesc_perm l1).trans (hp.trans (sortDesc_perm l2).symm)
  have hd1 : (sortDesc l1).Pairwise fun a c => areaD a ≠ areaD c :=
    (((sortDesc_perm l1).pairwise_iff fun h => Ne.symm h).mpr hd)
  have hd2 : (sortDesc l2).Pairwise fun a c => areaD a ≠ areaD c :=
    ((hperm.pairwise_iff fun h => Ne.symm h).mp hd1)
  have hs1 : (sortDesc l1).Pairwise fun a c => areaD c < areaD a :=
    ((sortDesc_sorted l1).and hd1).imp fun hac =>
      lt_of_le_of_ne hac.1 (Ne.symm hac.2)
  have hs2 : (sortDesc l2).Pairwise fun a c => areaD c < areaD a :=
    ((sortDesc_sorted l2).and hd2).imp fun hac =>
      lt_of_le_of_ne hac.1 (Ne.symm hac.2)
  haveI : IsAntisymm Hot fun a c => areaD c < areaD a :=
    ⟨fun a c h1 h2 => absurd (lt_trans h1 h2) (lt_irrefl _)⟩
  exact List.eq_of_perm_of_sorted hperm hs1 hs2

theorem dedupe_eval (xs : List PVal)
    (hall : (hotDicts xs).all (fun h => (_bbox h).isSome) = true)
    (kept : List Hot) (hdl : dlLoop (sortDesc (hotDicts xs)) [] = some kept) :
    dedupe_hotspots xs = some ((kept.take 12).map PVal.dict) := by
  have hbody : dedupe_hotspots xs =
      (if (hotDicts xs).all (fun h => (_bbox h).isSome) = true then
        match dlLoop (sortDesc (hotDicts xs)) [] with
        | some kept => some ((kept.take 12).map PVal.dict)
        | Option.none => Option.none
      else Option.none) := rfl
  rw [hbody, if_pos hall, hdl]

theorem dedupe_eval_inv (xs : List PVal) (out : List PVal)
    (hout : dedupe_hotspots xs = some out) :
    (hotDicts xs).all (fun h => (_bbox h).isSome) = true ∧
    ∃ kept, dlLoop (sortDesc (hotDicts xs)) [] = some kept ∧
      out = (kept.take 12).map PVal.dict := by
  have hbody : (if (hotDicts xs).all (fun h => (_bbox h).isSome) = true then
      match dlLoop (sortDesc (hotDicts xs)) [] with
      | some kept => some ((kept.take 12).map PVal.dict)
      | Option.none => Option.none
    else Option.none) = some out := hout
  by_cases hall : (hotDicts xs).all (fun h => (_bbox h).isSome) = true
  · rw [if_pos hall] at hbody
    cases hdl : dlLoop (sortDesc (hotDicts xs)) [] with
    | none =>
        rw [hdl] at hbody
        exact absurd hbody (by simp)
    | some kept =>
        rw [hdl] at hbody
        exact ⟨hall, kept, rfl, (Option.some.inj hbody).symm⟩
  · rw [if_neg hall] at hbody
    exact absurd hbody (by simp)

theorem hotDicts_map_dict (l : List Hot) : hotDicts (l.map PVal.dict) = l := by
  induction l with
  | nil => rfl
  | cons k t ih => simp [hotDicts, List.filterMap_cons] at ih ⊢; exact ih

/-- The kept list produced by a successful run satisfies all loop
invariants, provided every candidate dict has in-unit positional
fields. -/
theorem dedupe_kept_invariants (xs : List PVal) (kept : List Hot)
    (hin : ∀ h ∈ hotDicts xs, inUnitB h = true)
    (hdl : dlLoop (sortDesc (hotDicts xs)) [] = some kept) :
    (∀ k ∈ kept, Clamped01 k ∧ (_bbox k).isSome) ∧
      kept.Pairwise NoMergeRel ∧ kept.Pairwise areaGe := by
  refine dlLoop_invariants (sortDesc (hotDicts xs)) [] kept hdl ?_ ?_ ?_ ?_ ?_ ?_
  · intro h hh
    exact hin h ((sortDesc_perm (hotDicts xs)).mem_iff.mp hh)
  · exact sortDesc_sorted (hotDicts xs)
  · intro k hk; simp at hk
  · exact List.Pairwise.nil
  · exact List.Pairwise.nil
  · intro k hk; simp at hk

/-- C3 counterexample: a rect candidate carrying an unrelated,
non-float-coercible positional field `cx = "abc"`.  The clamp's
`except: pass` leaves the value untouched, so the returned hotspot has a
positional field that is not a number in [0,1] — refuting the universal
claim for arbitrary inputs. -/
theorem dedupe_keeps_noncoercible_field :
    dedupe_hotspots
      [.dict [("shape", .str "rect"), ("x", .float (1/10)), ("y", .float (1/10)),
              ("w", .float (1/2)), ("h", .float (1/2)), ("cx", .str "abc")]] =
      some [.dict [("shape", .str "rect"), ("x", .float (1/10)), ("y", .float (1/10)),
              ("w", .float (1/2)), ("h", .float (1/2)), ("cx", .str "abc")]] ∧
    dictGet [("shape", .str "rect"), ("x", .float (1/10)), ("y", .float (1/10)),
              ("w", .float (1/2)), ("h", .float (1/2)), ("cx", .str "abc")] "cx" =
      some (PVal.str "abc") ∧
    floatValue (PVal.str "abc") = Option.none := by
  refine ⟨by decide, by decide, by decide⟩

/-- C3 (amended): when every present positional field of every dict
candidate is float-coercible, every positional field of every returned
hotspot is a float lying in [0,1] inclusive — in particular for
candidates with coordinate values that are negative or greater than 1.
A present non-coercible positional value is instead passed through
unchanged by the clamp's `except: pass` (see the counterexample), and a
non-coercible value that the bounding-box computation itself reads makes
`dedupe_hotspots` raise. -/
theorem dedupe_output_clamped (xs : List PVal) (out : List PVal)
    (hco : ∀ h ∈ hotDicts xs, coercibleB h = true)
    (hout : dedupe_hotspots xs = some out) :
    ∀ v ∈ out, ∃ kvs, v = PVal.dict kvs ∧ ∀ key ∈ posKeys, ∀ w,
      dictGet kvs key = some w → ∃ q, w = PVal.float q ∧ 0 ≤ q ∧ q ≤ 1 := by
  obtain ⟨hall, kept, hdl, rfl⟩ := dedupe_eval_inv xs out hout
  have hcl : ∀ k ∈ kept, Clamped01 k := by
    refine dlLoop_clamped (sortDesc (hotDicts xs)) [] kept hdl ?_ ?_
    · intro h hh
      exact hco h ((sortDesc_perm (hotDicts xs)).mem_iff.mp hh)
    · intro k hk; simp at hk
  intro v hv
  obtain ⟨kvs, hkv, rfl⟩ := List.mem_map.mp hv
  exact ⟨kvs, rfl, hcl kvs (List.take_subset _ _ hkv)⟩

/-- Witness for C3 (amended): a rect with `x = 5` comes back with every
positional field a float in [0,1] (`x` clamped to 1). -/
theorem dedupe_output_clamped_witness :
    (∀ h ∈ hotDicts [.dict [("shape", .str "rect"), ("x", .float 5), ("y", .float 0),
        ("w", .float (1/2)), ("h", .float (1/2))]], coercibleB h = true) ∧
    dedupe_hotspots [.dict [("shape", .str "rect"), ("x", .float 5), ("y", .float 0),
        ("w", .float (1/2)), ("h", .float (1/2))]] =
      some [.dict [("shape", .str "rect"), ("x", .float 1), ("y", .float 0),
        ("w", .float (1/2)), ("h", .float (1/2))]] ∧
    (∀ v ∈ [PVal.dict [("shape", .str "rect"), ("x", .float 1), ("y", .float 0),
        ("w", .float (1/2)), ("h", .float (1/2))]],
      ∃ kvs, v = PVal.dict kvs ∧ ∀ key ∈ posKeys, ∀ w,
        dictGet kvs key = some w → ∃ q, w = PVal.float q ∧ 0 ≤ q ∧ q ≤ 1) := by
  refine ⟨by decide, by decide, ?_⟩
  have h := dedupe_output_clamped
    [.dict [("shape", .str "rect"), ("x", .float 5), ("y", .float 0),
        ("w", .float (1/2)), ("h", .float (1/2))]]
    [.dict [("shape", .str "rect"), ("x", .float 1), ("y", .float 0),
        ("w", .float (1/2)), ("h", .float (1/2))]]
    (by decide) (by decide)
  exact h

/-- C5 counterexample: a candidate with an out-of-range center
(`cx = -3`) is kept after failing the merge test against the rect, and
only then clamped (`cx = 0`); on the second run the clamped center lies
within 0.12 of the rect's center, so the two regions merge and the
output shrinks — `dedupe_hotspots` is not idempotent on arbitrary
inputs. -/
theorem dedupe_not_idempotent :
    dedupe_hotspots
      [.dict [("shape", .str "rect"), ("x", .float 0), ("y", .float (2/5)),
              ("w", .float (1/10)), ("h", .float (1/5))],
       .dict [("shape", .str "circle"), ("cx", .float (-3)), ("cy", .float (1/2)),
              ("r", .float (1/25))]] =
      some [.dict [("shape", .str "rect"), ("x", .float 0), ("y", .float (2/5)),
              ("w", .float (1/10)), ("h", .float (1/5))],
            .dict [("shape", .str "circle"), ("cx", .float 0), ("cy", .float (1/2)),
              ("r", .float (1/25))]] ∧
    dedupe_hotspots
      [.dict [("shape", .str "rect"), ("x", .float 0), ("y", .float (2/5)),
              ("w", .float (1/10)), ("h", .float (1/5))],
       .dict [("shape", .str "circle"), ("cx", .float 0), ("cy", .float (1/2)),
              ("r", .float (1/25))]] ≠
      some [.dict [("shape", .str "rect"), ("x", .float 0), ("y", .float (2/5)),
              ("w", .float (1/10)), ("h", .float (1/5))],
            .dict [("shape", .str "circle"), ("cx", .float 0), ("cy", .float (1/2)),
              ("r", .float (1/25))]] := by
  refine ⟨by decide, by decide⟩

/-- C5 (amended): `dedupe_hotspots` is idempotent on inputs whose dict
candidates have all their present positional fields float-coercible with
values already in [0,1] (so that the post-test clamp cannot move a kept
region): re-running it on its own output returns the output unchanged.
For out-of-range inputs the clamp runs only after the merge test, and a
second run can merge regions the first run kept apart (see the
counterexample). -/
theorem dedupe_idempotent_in_unit (xs : List PVal) (out : List PVal)
    (hin : ∀ h ∈ hotDicts xs, inUnitB h = true)
    (hout : dedupe_hotspots xs = some out) :
    dedupe_hotspots out = some out := by
  obtain ⟨hall, kept, hdl, rfl⟩ := dedupe_eval_inv xs out hout
  obtain ⟨hK1, hK2, hK3⟩ := dedupe_kept_invariants xs kept hin hdl
  have htake_sub : ∀ k ∈ kept.take 12, k ∈ kept := fun k hk => List.take_subset _ _ hk
  have hK1t : ∀ k ∈ kept.take 12, Clamped01 k ∧ (_bbox k).isSome :=
    fun k hk => hK1 k (htake_sub k hk)
  have hK2t : (kept.take 12).Pairwise NoMergeRel :=
    hK2.sublist (List.take_sublist _ _)
  have hK3t : (kept.take 12).Pairwise areaGe :=
    hK3.sublist (List.take_sublist _ _)
  have hhd : hotDicts ((kept.take 12).map PVal.dict) = kept.take 12 :=
    hotDicts_map_dict _
  have hall2 : (hotDicts ((kept.take 12).map PVal.dict)).all
      (fun h => (_bbox h).isSome) = true := by
    rw [hhd, List.all_eq_true]
    exact fun k hk => (hK1t k hk).2
  have hsort2 : sortDesc (hotDicts ((kept.take 12).map PVal.dict)) = kept.take 12 := by
    rw [hhd]
    exact sortDesc_of_sorted _ hK3t
  have hdl2 : dlLoop (sortDesc (hotDicts ((kept.take 12).map PVal.dict))) [] =
      some (kept.take 12) := by
    rw [hsort2]
    have := dlLoop_fixed (kept.take 12) [] (by simpa using hK2t) (by simpa using hK1t)
    simpa using this
  have := dedupe_eval ((kept.take 12).map PVal.dict) hall2 (kept.take 12) hdl2
  rw [this, List.take_take]
  norm_num

/-- Witness for C5 (amended): the spec's own example pair (two nearby
in-range circles) merges into one region on the first run, and a second
run leaves that output unchanged. -/
theorem dedupe_idempotent_in_unit_witness :
    (∀ h ∈ hotDicts
        [.dict [("shape", .str "circle"), ("cx", .float (1/2)), ("cy", .float (1/2)),
                ("r", .float (1/10))],
         .dict [("shape", .str "circle"), ("cx", .float (13/25)), ("cy", .float (1/2)),
                ("r", .float (9/100))]], inUnitB h = true) ∧
    dedupe_hotspots
        [.dict [("shape", .str "circle"), ("cx", .float (1/2)), ("cy", .float (1/2)),
                ("r", .float (1/10))],
         .dict [("shape", .str "circle"), ("cx", .float (13/25)), ("cy", .float (1/2)),
                ("r", .float (9/100))]] =
      some [.dict [("shape", .str "circle"), ("cx", .float (1/2)), ("cy", .float (1/2)),
                ("r", .float (1/10)), ("risks", .list []), ("suggested_edits", .list [])]] ∧
    dedupe_hotspots
        [.dict [("shape", .str "circle"), ("cx", .float (1/2)), ("cy", .float (1/2)),
                ("r", .float (1/10)), ("risks", .list []), ("suggested_edits", .list [])]] =
      some [.dict [("shape", .str "circle"), ("cx", .float (1/2)), ("cy", .float (1/2)),
                ("r", .float (1/10)), ("risks", .list []), ("suggested_edits", .list [])]] := by
  refine ⟨by decide, by decide, ?_⟩
  exact dedupe_idempotent_in_unit
    [.dict [("shape", .str "circle"), ("cx", .float (1/2)), ("cy", .float (1/2)),
            ("r", .float (1/10))],
     .dict [("shape", .str "circle"), ("cx", .float (13/25)), ("cy", .float (1/2)),
            ("r", .float (9/100))]]
    [.dict [("shape", .str "circle"), ("cx", .float (1/2)), ("cy", .float (1/2)),
            ("r", .float (1/10)), ("risks", .list []), ("suggested_edits", .list [])]]
    (by decide) (by decide)

theorem bool_eq_of_iff (a b : Bool) (h : a = true ↔ b = true) : a = b := by
  cases a with
  | true => exact (h.mp rfl).symm
  | false =>
      cases b with
      | true => exact absurd (h.mpr rfl) (by simp)
      | false => rfl

/-- C6 counterexample: two equal-area circles within merge distance.
The stable largest-first sort breaks the area tie by input order, so the
two input orders keep different geometry (cx = 0.3 vs cx = 0.35) — the
final kept set is not permutation-invariant when areas tie. -/
theorem dedupe_tie_order_dependent :
    ([PVal.dict [("shape", .str "circle"), ("cx", .float (3/10)), ("cy", .float (1/2)),
        ("r", .float (1/20))],
      PVal.dict [("shape", .str "circle"), ("cx", .float (7/20)), ("cy", .float (1/2)),
        ("r", .float (1/20))]]).Perm
      [PVal.dict [("shape", .str "circle"), ("cx", .float (7/20)), ("cy", .float (1/2)),
        ("r", .float (1/20))],
       PVal.dict [("shape", .str "circle"), ("cx", .float (3/10)), ("cy", .float (1/2)),
        ("r", .float (1/20))]] ∧
    dedupe_hotspots
      [.dict [("shape", .str "circle"), ("cx", .float (3/10)), ("cy", .float (1/2)),
        ("r", .float (1/20))],
       .dict [("shape", .str "circle"), ("cx", .float (7/20)), ("cy", .float (1/2)),
        ("r", .float (1/20))]] ≠
    dedupe_hotspots
      [.dict [("shape", .str "circle"), ("cx", .float (7/20)), ("cy", .float (1/2)),
        ("r", .float (1/20))],
       .dict [("shape", .str "circle"), ("cx", .float (3/10)), ("cy", .float (1/2)),
        ("r", .float (1/20))]] := by
  constructor
  · exact List.Perm.swap _ _ _
  · decide

/-- C6 (amended): (1) when the dict candidates have pairwise distinct
bounding-box areas (so the largest-first rule needs no tie-breaking),
any permutation of the input yields the same output list — same kept
set, same geometry, same order; with tied areas the stable sort breaks
ties by encounter order and permutations can change the result (see the
counterexample).  (2) For candidates whose positional fields lie in
[0,1] (where clamping cannot change a bounding box), the output list is
ordered deterministically largest-bounding-box-area first. -/
theorem dedupe_perm_and_order :
    (∀ xs ys : List PVal, xs.Perm ys →
      (hotDicts xs).Pairwise (fun a c => areaD a ≠ areaD c) →
      dedupe_hotspots xs = dedupe_hotspots ys) ∧
    (∀ xs out, (∀ h ∈ hotDicts xs, inUnitB h = true) →
      dedupe_hotspots xs = some out →
      out.Pairwise fun a c => areaPV c ≤ areaPV a) := by
  constructor
  · intro xs ys hp hd
    have hpd : (hotDicts xs).Perm (hotDicts ys) := hp.filterMap _
    have hall : ((hotDicts xs).all fun h => (_bbox h).isSome) =
        ((hotDicts ys).all fun h => (_bbox h).isSome) := by
      refine bool_eq_of_iff _ _ ?_
      simp only [List.all_eq_true]
      constructor
      · intro hh k hk
        exact hh k (hpd.mem_iff.mpr hk)
      · intro hh k hk
        exact hh k (hpd.mem_iff.mp hk)
    have hsort : sortDesc (hotDicts xs) = sortDesc (hotDicts ys) :=
      sortDesc_eq_of_perm _ _ hpd hd
    have hx : dedupe_hotspots xs =
        (if (hotDicts xs).all (fun h => (_bbox h).isSome) = true then
          match dlLoop (sortDesc (hotDicts xs)) [] with
          | some kept => some ((kept.take 12).map PVal.dict)
          | Option.none => Option.none
        else Option.none) := rfl
    have hy : dedupe_hotspots ys =
        (if (hotDicts ys).all (fun h => (_bbox h).isSome) = true then
          match dlLoop (sortDesc (hotDicts ys)) [] with
          | some kept => some ((kept.take 12).map PVal.dict)
          | Option.none => Option.none
        else Option.none) := rfl
    rw [hx, hy, hall, hsort]
  · intro xs out hin hout
    obtain ⟨hall, kept, hdl, rfl⟩ := dedupe_eval_inv xs out hout
    obtain ⟨hK1, hK2, hK3⟩ := dedupe_kept_invariants xs kept hin hdl
    have hK3t : (kept.take 12).Pairwise areaGe :=
      hK3.sublist (List.take_sublist _ _)
    exact (List.pairwise_map).mpr hK3t

/-- Witness for C6 (amended): two circles of distinct areas permuted
yield the same output, and an in-range input's output is ordered
largest-area first. -/
theorem dedupe_perm_and_order_witness :
    (([PVal.dict [("shape", .str "circle"), ("cx", .float (1/2)), ("cy", .float (1/2)),
          ("r", .float (1/10))],
       PVal.dict [("shape", .str "circle"), ("cx", .float (13/25)), ("cy", .float (1/2)),
          ("r", .float (9/100))]]).Perm
      [PVal.dict [("shape", .str "circle"), ("cx", .float (13/25)), ("cy", .float (1/2)),
          ("r", .float (9/100))],
       PVal.dict [("shape", .str "circle"), ("cx", .float (1/2)), ("cy", .float (1/2)),
          ("r", .float (1/10))]] ∧
     (hotDicts [PVal.dict [("shape", .str "circle"), ("cx", .float (1/2)),
          ("cy", .float (1/2)), ("r", .float (1/10))],
        PVal.dict [("shape", .str "circle"), ("cx", .float (13/25)), ("cy", .float (1/2)),
          ("r", .float (9/100))]]).Pairwise (fun a c => areaD a ≠ areaD c)) ∧
    dedupe_hotspots
      [.dict [("shape", .str "circle"), ("cx", .float (1/2)), ("cy", .float (1/2)),
          ("r", .float (1/10))],
       .dict [("shape", .str "circle"), ("cx", .float (13/25)), ("cy", .float (1/2)),
          ("r", .float (9/100))]] =
    dedupe_hotspots
      [.dict [("shape", .str "circle"), ("cx", .float (13/25)), ("cy", .float (1/2)),
          ("r", .float (9/100))],
       .dict [("shape", .str "circle"), ("cx", .float (1/2)), ("cy", .float (1/2)),
          ("r", .float (1/10))]] ∧
    (∀ h ∈ hotDicts [PVal.dict [("shape", .str "circle"), ("cx", .float (1/2)),
          ("cy", .float (1/2)), ("r", .float (1/10))]], inUnitB h = true) ∧
    (∀ out, dedupe_hotspots [PVal.dict [("shape", .str "circle"), ("cx", .float (1/2)),
          ("cy", .float (1/2)), ("r", .float (1/10))]] = some out →
      out.Pairwise fun a c => areaPV c ≤ areaPV a) := by
  refine ⟨⟨?_, by decide⟩, ?_, by decide, ?_⟩
  · exact List.Perm.swap _ _ _
  · exact dedupe_perm_and_order.1 _ _ (List.Perm.swap _ _ _) (by decide)
  · intro out hout
    exact dedupe_perm_and_order.2 _ out (by decide) hout

/-- C4 counterexample: two nearby circles each carrying
`suggested_edits = ["x"]`.  After the merge the kept hotspot's
`suggested_edits` is `["x", "x"]` — the code deduplicates only the kept
list before appending the candidate's list verbatim, so the result is
not a union of disjoint-kept unordered sets (it contains a duplicate). -/
theorem merge_edits_duplicate :
    dedupe_hotspots
      [.dict [("shape", .str "circle"), ("cx", .float (1/2)), ("cy", .float (1/2)),
              ("r", .float (1/10)), ("suggested_edits", .list [.str "x"])],
       .dict [("shape", .str "circle"), ("cx", .float (13/25)), ("cy", .float (1/2)),
              ("r", .float (9/100)), ("suggested_edits", .list [.str "x"])]] =
      some [.dict [("shape", .str "circle"), ("cx", .float (1/2)), ("cy", .float (1/2)),
              ("r", .float (1/10)), ("suggested_edits", .list [.str "x", .str "x"]),
              ("risks", .list [])]] ∧
    ¬ ([PVal.str "x", PVal.str "x"] : List PVal).Nodup := by
  refine ⟨by decide, by decide⟩

/-- C4 (amended): a candidate merges into the first kept region whose
bounding box passes `IoU > 0.55 or center distance < 0.12`, and into
none when every kept region fails the test; the merge keeps the kept
hotspot's geometry and shape (every key other than `label`, `risks`,
`suggested_edits` is untouched), fills the label only if the kept one is
falsy, sets `risks` to the set-union of both risk lists (iteration order
implementation-defined, modelled as first-insertion order), and sets
`suggested_edits` to the set-deduplicated kept list followed by the
candidate's list verbatim — cross-list duplicates are retained, so it is
not a set union (see the counterexample). -/
theorem merge_behavior :
    (∀ (b : BBox) (h : Hot) (kept : List Hot),
      (∀ k ∈ kept, ∃ bk, _bbox k = some bk ∧ mergePred b bk = false) →
      scanKept b h kept = some Option.none) ∧
    (∀ (b : BBox) (h k : Hot) (ks : List Hot) (bk : BBox) (m : Hot),
      _bbox k = some bk → mergePred b bk = true → _merge k h = some m →
      scanKept b h (k :: ks) = some (some (m :: ks))) ∧
    (∀ (a b m : Hot) (key : String), _merge a b = some m → key ≠ "label" →
      key ≠ "risks" → key ≠ "suggested_edits" → dictGet m key = dictGet a key) ∧
    (∀ a b m : Hot, _merge a b = some m →
      pyTruthy (dictGetD a "label" PVal.none) = true →
      dictGet m "label" = dictGet a "label") ∧
    (∀ (a b m : Hot) (ra rb : List PVal), _merge a b = some m →
      starUnpack (dictGet a "risks") = some ra →
      starUnpack (dictGet b "risks") = some rb →
      dictGet m "risks" = some (.list (setDedupP (ra ++ rb)))) ∧
    (∀ (a b m : Hot) (ea eb : List PVal), _merge a b = some m →
      starUnpack (dictGet a "suggested_edits") = some ea →
      starUnpack (dictGet b "suggested_edits") = some eb →
      dictGet m "suggested_edits" = some (.list (setDedupP ea ++ eb))) := by
  refine ⟨scan_none_of, ?_, ?_, ?_, ?_, ?_⟩
  · intro b h k ks bk m hbk hpred hm
    simp only [scanKept, hbk, hpred, if_true, hm]
  · intro a b m key hm h1 h2 h3
    exact dictGet_merge_other a b m key hm h1 h2 h3
  · intro a b m hm htr
    obtain ⟨ra, rb, ea, eb, _, _, _, _, rfl⟩ := merge_cases a b m hm
    rw [dictGet_dictSet_other _ _ _ _ (by decide),
      dictGet_dictSet_other _ _ _ _ (by decide)]
    unfold mergeLabel
    rw [if_neg]
    rintro ⟨hfalse, _⟩
    exact hfalse htr
  · intro a b m ra rb hm hra hrb
    obtain ⟨ra2, rb2, ea, eb, h1, h2, _, _, rfl⟩ := merge_cases a b m hm
    rw [dictGet_mergeLabel_other a b "risks" (by decide), hra] at h1
    rw [hrb] at h2
    obtain rfl : ra2 = ra := (Option.some.inj h1).symm
    obtain rfl : rb2 = rb := (Option.some.inj h2).symm
    rw [dictGet_dictSet_other _ _ _ _ (by decide), dictGet_dictSet_same]
  · intro a b m ea eb hm hea heb
    obtain ⟨ra, rb, ea2, eb2, _, _, h3, h4, rfl⟩ := merge_cases a b m hm
    rw [dictGet_dictSet_other _ _ _ _ (by decide),
      dictGet_mergeLabel_other a b "suggested_edits" (by decide), hea] at h3
    rw [heb] at h4
    obtain rfl : ea2 = ea := (Option.some.inj h3).symm
    obtain rfl : eb2 = eb := (Option.some.inj h4).symm
    rw [dictGet_dictSet_same]

/-- Witness for C4 (amended), on the spec's example circles with a label
and one suggested edit each: no merge against an empty kept list; the
candidate merges into the matching head; geometry (`cx`), a truthy
label, the risks set-union and the edits concatenation all behave as
stated. -/
theorem merge_behavior_witness :
    scanKept ⟨0, 0, 1, 1⟩ [] [] = some Option.none ∧
    scanKept ⟨43/100, 41/100, 61/100, 59/100⟩
      [("shape", .str "circle"), ("cx", .float (13/25)), ("cy", .float (1/2)),
       ("r", .float (9/100)), ("suggested_edits", .list [.str "x"])]
      [[("shape", .str "circle"), ("cx", .float (1/2)), ("cy", .float (1/2)),
        ("r", .float (1/10)), ("label", .str "L"), ("suggested_edits", .list [.str "x"])]] =
      some (some [[("shape", .str "circle"), ("cx", .float (1/2)), ("cy", .float (1/2)),
        ("r", .float (1/10)), ("label", .str "L"),
        ("suggested_edits", .list [.str "x", .str "x"]), ("risks", .list [])]]) ∧
    dictGet [("shape", PVal.str "circle"), ("cx", .float (1/2)), ("cy", .float (1/2)),
        ("r", .float (1/10)), ("label", .str "L"),
        ("suggested_edits", .list [.str "x", .str "x"]), ("risks", .list [])] "cx" =
      dictGet [("shape", PVal.str "circle"), ("cx", .float (1/2)), ("cy", .float (1/2)),
        ("r", .float (1/10)), ("label", .str "L"),
        ("suggested_edits", .list [.str "x"])] "cx" ∧
    dictGet [("shape", PVal.str "circle"), ("cx", .float (1/2)), ("cy", .float (1/2)),
        ("r", .float (1/10)), ("label", .str "L"),
        ("suggested_edits", .list [.str "x", .str "x"]), ("risks", .list [])] "label" =
      dictGet [("shape", PVal.str "circle"), ("cx", .float (1/2)), ("cy", .float (1/2)),
        ("r", .float (1/10)), ("label", .str "L"),
        ("suggested_edits", .list [.str "x"])] "label" ∧
    dictGet [("shape", PVal.str "circle"), ("cx", .float (1/2)), ("cy", .float (1/2)),
        ("r", .float (1/10)), ("label", .str "L"),
        ("suggested_edits", .list [.str "x", .str "x"]), ("risks", .list [])] "risks" =
      some (.list (setDedupP ([] ++ []))) ∧
    dictGet [("shape", PVal.str "circle"), ("cx", .float (1/2)), ("cy", .float (1/2)),
        ("r", .float (1/10)), ("label", .str "L"),
        ("suggested_edits", .list [.str "x", .str "x"]), ("risks", .list [])]
        "suggested_edits" =
      some (.list (setDedupP [.str "x"] ++ [.str "x"])) := by
  refine ⟨merge_behavior.1 _ _ [] (by simp), ?_, ?_, ?_, ?_, ?_⟩
  · exact merge_behavior.2.1 _ _ _ [] ⟨2/5, 2/5, 3/5, 3/5⟩ _
      (by decide) (by decide) (by decide)
  · exact merge_behavior.2.2.1 _
      [("shape", .str "circle"), ("cx", .float (13/25)), ("cy", .float (1/2)),
       ("r", .float (9/100)), ("suggested_edits", .list [.str "x"])]
      _ "cx" (by decide) (by decide) (by decide) (by decide)
  · exact merge_behavior.2.2.2.1 _
      [("shape", .str "circle"), ("cx", .float (13/25)), ("cy", .float (1/2)),
       ("r", .float (9/100)), ("suggested_edits", .list [.str "x"])]
      _ (by decide) (by decide)
  · exact merge_behavior.2.2.2.2.1
      [("shape", .str "circle"), ("cx", .float (1/2)), ("cy", .float (1/2)),
       ("r", .float (1/10)), ("label", .str "L"), ("suggested_edits", .list [.str "x"])]
      [("shape", .str "circle"), ("cx", .float (13/25)), ("cy", .float (1/2)),
       ("r", .float (9/100)), ("suggested_edits", .list [.str "x"])]
      _ [] [] (by decide) (by decide) (by decide)
  · exact merge_behavior.2.2.2.2.2
      [("shape", .str "circle"), ("cx", .float (1/2)), ("cy", .float (1/2)),
       ("r", .float (1/10)), ("label", .str "L"), ("suggested_edits", .list [.str "x"])]
      [("shape", .str "circle"), ("cx", .float (13/25)), ("cy", .float (1/2)),
       ("r", .float (9/100)), ("suggested_edits", .list [.str "x"])]
      _ [.str "x"] [.str "x"] (by decide) (by decide) (by decide)

/-- C10 counterexample: a dict candidate whose `shape` field is the
truthy non-string `1`.  The claim says any entry whose shape is not
(case-insensitively) `"rect"` is treated as a circle; the code instead
raises an uncaught `AttributeError` from `(1).lower()` inside the sort
key, so `dedupe_hotspots` crashes (`Option.none`). -/
theorem dedupe_shape_nonstring_raises :
    dedupe_hotspots [.dict [("shape", .int 1)]] = Option.none ∧
    _bbox [("shape", PVal.int 1)] = Option.none := by
  refine ⟨by decide, by decide⟩

/-- C10 (amended): non-dict candidates are silently dropped before
processing; an entry whose `shape` field is missing, falsy, or a string
differing case-insensitively from `"rect"` is treated as a circle, with
missing `cx`, `cy`, `r` defaulting to 0.5, 0.5, 0.1 in the bounding box
(hence in all area and merge computations); a string shape equal
case-insensitively to `"rect"` uses `x`, `y`, `w`, `h` with default 0;
but a truthy non-string shape raises instead of being treated as a
circle (see the counterexample). -/
theorem dedupe_drop_and_defaults :
    (∀ (x : PVal) (xs : List PVal), isDictP x = false →
      dedupe_hotspots (x :: xs) = dedupe_hotspots xs) ∧
    (∀ h : Hot, dictGet h "shape" = Option.none → dictGet h "cx" = Option.none →
      dictGet h "cy" = Option.none → dictGet h "r" = Option.none →
      _bbox h = some ⟨2/5, 2/5, 3/5, 3/5⟩) ∧
    (∀ (h : Hot) (s : String), dictGet h "shape" = some (PVal.str s) →
      pyLower s = "rect" →
      dictGet h "x" = Option.none → dictGet h "y" = Option.none →
      dictGet h "w" = Option.none → dictGet h "h" = Option.none →
      _bbox h = some ⟨0, 0, 0, 0⟩) ∧
    (∀ (h : Hot) (s : String), dictGet h "shape" = some (PVal.str s) → s ≠ "" →
      pyLower s ≠ "rect" →
      dictGet h "cx" = Option.none → dictGet h "cy" = Option.none →
      dictGet h "r" = Option.none → _bbox h = some ⟨2/5, 2/5, 3/5, 3/5⟩) ∧
    (∀ (h : Hot) (v : PVal), dictGet h "shape" = some v → pyTruthy v = false →
      dictGet h "cx" = Option.none → dictGet h "cy" = Option.none →
      dictGet h "r" = Option.none → _bbox h = some ⟨2/5, 2/5, 3/5, 3/5⟩) := by
  refine ⟨?_, ?_, ?_, ?_, ?_⟩
  · intro x xs hx
    have hdicts : hotDicts (x :: xs) = hotDicts xs := by
      cases x <;> simp_all [hotDicts, List.filterMap_cons, isDictP]
    have h1 : dedupe_hotspots (x :: xs) =
        (if (hotDicts (x :: xs)).all (fun h => (_bbox h).isSome) = true then
          match dlLoop (sortDesc (hotDicts (x :: xs))) [] with
          | some kept => some ((kept.take 12).map PVal.dict)
          | Option.none => Option.none
        else Option.none) := rfl
    have h2 : dedupe_hotspots xs =
        (if (hotDicts xs).all (fun h => (_bbox h).isSome) = true then
          match dlLoop (sortDesc (hotDicts xs)) [] with
          | some kept => some ((kept.take 12).map PVal.dict)
          | Option.none => Option.none
        else Option.none) := rfl
    rw [h1, h2, hdicts]
  · intro h hs hcx hcy hr
    have h1 : shapeLower h = some "circle" := by
      unfold shapeLower dictGetD
      rw [hs]
      rfl
    simp only [_bbox, h1, dictGetD, hcx, hcy, hr, Option.getD_none]
    rw [if_neg (by decide : ¬ ("circle" : String) = "rect")]
    decide
  · intro h s hs hlow hx hy hw hh
    have hs0 : s ≠ "" := by
      rintro rfl
      exact absurd hlow (by decide)
    have h1 : shapeLower h = some "rect" := by
      unfold shapeLower dictGetD
      rw [hs]
      simp [pyOr, pyTruthy, hs0, hlow]
    simp only [_bbox, h1, dictGetD, hx, hy, hw, hh, Option.getD_none]
    simp only [if_true]
    decide
  · intro h s hs hs0 hlow hcx hcy hr
    have h1 : shapeLower h = some (pyLower s) := by
      unfold shapeLower dictGetD
      rw [hs]
      simp [pyOr, pyTruthy, hs0]
    simp only [_bbox, h1, dictGetD, hcx, hcy, hr, Option.getD_none]
    rw [if_neg hlow]
    decide
  · intro h v hs htr hcx hcy hr
    have h1 : shapeLower h = some "circle" := by
      unfold shapeLower dictGetD
      rw [hs]
      simp [pyOr, htr]
      rfl
    simp only [_bbox, h1, dictGetD, hcx, hcy, hr, Option.getD_none]
    rw [if_neg (by decide : ¬ ("circle" : String) = "rect")]
    decide

/-- Witness for C10 (amended): a non-dict entry is dropped; a bare dict
gets the default circle box `(0.4, 0.4, 0.6, 0.6)`; `shape = "ReCt"` is
recognized case-insensitively as a rect with default box `(0,0,0,0)`;
`shape = "oval"` is treated as a circle; a falsy shape (`0`) is treated
as a circle. -/
theorem dedupe_drop_and_defaults_witness :
    dedupe_hotspots [PVal.int 3] = dedupe_hotspots [] ∧
    _bbox [] = some ⟨2/5, 2/5, 3/5, 3/5⟩ ∧
    _bbox [("shape", PVal.str "ReCt")] = some ⟨0, 0, 0, 0⟩ ∧
    _bbox [("shape", PVal.str "oval")] = some ⟨2/5, 2/5, 3/5, 3/5⟩ ∧
    _bbox [("shape", PVal.int 0)] = some ⟨2/5, 2/5, 3/5, 3/5⟩ := by
  refine ⟨dedupe_drop_and_defaults.1 (PVal.int 3) [] (by decide), ?_, ?_, ?_, ?_⟩
  · exact dedupe_drop_and_defaults.2.1 [] (by decide) (by decide) (by decide) (by decide)
  · exact dedupe_drop_and_defaults.2.2.1 [("shape", PVal.str "ReCt")] "ReCt"
      (by decide) (by decide) (by decide) (by decide) (by decide) (by decide)
  · exact dedupe_drop_and_defaults.2.2.2.1 [("shape", PVal.str "oval")] "oval"
      (by decide) (by decide) (by decide) (by decide) (by decide) (by decide)
  · exact dedupe_drop_and_defaults.2.2.2.2 [("shape", PVal.int 0)] (PVal.int 0)
      (by decide) (by decide) (by decide) (by decide) (by decide)
